import Mathlib

/-
Shallow embedding of the `claude-code-trees` session core
(src/claude_code_trees/session.py and claude_instance.py).

Modelling conventions:
* Python dicts that preserve insertion order become association lists
  `List (String × _)`.
* `datetime.datetime` values are abstracted to integer timestamps; the
  pydantic `isoformat` encoder/decoder pair is modelled by the numeric
  JSON encoding (the encoding is injective in both cases, which is all
  the round-trip properties use).
* Float-valued `execution_time` is abstracted to an optional integer
  measure.
* The asyncio event loop is modelled explicitly: the single-threaded
  scheduler loop only yields control at its `await asyncio.sleep`
  points, so in-flight task coroutines start and finish only during
  those sleeps.  Which in-flight tasks finish during a given sleep is an
  environment choice, supplied as a `schedule : List (List String)`.
-/

namespace CCTrees

/-- JSON values, the target of pydantic's `model_dump_json` and the
source of `json.loads` in `SessionManager.get_session`. -/
inductive Json where
  | null : Json
  | bool (b : Bool) : Json
  | num (n : Int) : Json
  | str (s : String) : Json
  | arr (elems : List Json) : Json
  | obj (fields : List (String × Json)) : Json
deriving Repr

/-- Lookup of a key in an association list (Python `dict[key]` /
`dict.get(key)` on an insertion-ordered dict). -/
def alistFind {α : Type} : List (String × α) → String → Option α
  | [], _ => none
  | (k, v) :: rest, key => if k = key then some v else alistFind rest key

/-- Result of a completed task (`TaskResult` pydantic model). -/
structure TaskResult where
  task_id : String
  success : Bool
  output : Option String := none
  error : Option String := none
  execution_time : Option Int := none
  metadata : List (String × Json) := []
deriving Repr

/-- A task to be executed (`Task` pydantic model).  `status` is a plain
string in the source ("pending", "running", "completed", "failed"). -/
structure Task where
  task_id : String
  name : String
  description : String
  priority : Int := 0
  dependencies : List String := []
  context : List (String × Json) := []
  status : String := "pending"
  assigned_instance : Option String := none
  result : Option TaskResult := none
  created_at : Int
  started_at : Option Int := none
  completed_at : Option Int := none
deriving Repr

/-- A session with multiple tasks and instances (`Session` pydantic
model).  `tasks` maps task_id to Task, `instances` maps instance_id to
worktree name. -/
structure Session where
  session_id : String
  name : String
  description : Option String := none
  status : String := "active"
  tasks : List (String × Task) := []
  instances : List (String × String) := []
  metadata : List (String × Json) := []
  created_at : Int
  updated_at : Int
  completed_at : Option Int := none
deriving Repr

/-! ### Serialization (`model_dump_json`) -/

/-- Encoding of an optional string field. -/
def optStrToJson : Option String → Json
  | none => .null
  | some s => .str s

/-- Encoding of an optional timestamp / numeric field. -/
def optIntToJson : Option Int → Json
  | none => .null
  | some n => .num n

/-- Serialized form of a `TaskResult`, field for field in declaration
order as pydantic emits it. -/
def taskResultToJson (r : TaskResult) : Json :=
  .obj [("task_id", .str r.task_id),
        ("success", .bool r.success),
        ("output", optStrToJson r.output),
        ("error", optStrToJson r.error),
        ("execution_time", optIntToJson r.execution_time),
        ("metadata", .obj r.metadata)]

/-- Encoding of the nullable `result` field. -/
def optResultToJson : Option TaskResult → Json
  | none => .null
  | some r => taskResultToJson r

/-- Serialized form of a `Task`. -/
def taskToJson (t : Task) : Json :=
  .obj [("task_id", .str t.task_id),
        ("name", .str t.name),
        ("description", .str t.description),
        ("priority", .num t.priority),
        ("dependencies", .arr (t.dependencies.map .str)),
        ("context", .obj t.context),
        ("status", .str t.status),
        ("assigned_instance", optStrToJson t.assigned_instance),
        ("result", optResultToJson t.result),
        ("created_at", .num t.created_at),
        ("started_at", optIntToJson t.started_at),
        ("completed_at", optIntToJson t.completed_at)]

/-- Serialized form of a `Session`, the persisted document written by
`SessionManager._save_session`. -/
def sessionToJson (s : Session) : Json :=
  .obj [("session_id", .str s.session_id),
        ("name", .str s.name),
        ("description", optStrToJson s.description),
        ("status", .str s.status),
        ("tasks", .obj (s.tasks.map (fun p => (p.1, taskToJson p.2)))),
        ("instances", .obj (s.instances.map (fun p => (p.1, Json.str p.2)))),
        ("metadata", .obj s.metadata),
        ("created_at", .num s.created_at),
        ("updated_at", .num s.updated_at),
        ("completed_at", optIntToJson s.completed_at)]

/-! ### Deserialization (`json.loads` + `Session(**data)` validation) -/

/-- Field access on a JSON object. -/
def Json.getField : Json → String → Option Json
  | .obj fields, key => alistFind fields key
  | _, _ => none

/-- Validation of a string field. -/
def Json.asStr : Json → Option String
  | .str s => some s
  | _ => none

/-- Validation of an integer field. -/
def Json.asInt : Json → Option Int
  | .num n => some n
  | _ => none

/-- Validation of a nullable string field. -/
def Json.asOptStr : Json → Option (Option String)
  | .null => some none
  | .str s => some (some s)
  | _ => none

/-- Validation of a nullable integer field. -/
def Json.asOptInt : Json → Option (Option Int)
  | .null => some none
  | .num n => some (some n)
  | _ => none

/-- Validation of each element of a JSON array as a string. -/
def strListFromJson : List Json → Option (List String)
  | [] => some []
  | v :: rest => do
    let s ← v.asStr
    let ss ← strListFromJson rest
    pure (s :: ss)

/-- Validation of a list-of-strings field. -/
def Json.asStrList : Json → Option (List String)
  | .arr xs => strListFromJson xs
  | _ => none

/-- Validation of an opaque object field (kept as raw key/value bag). -/
def Json.asObj : Json → Option (List (String × Json))
  | .obj fields => some fields
  | _ => none

/-- Field access with a pydantic default: a missing key validates to
the declared default, a present key must parse. -/
def getFieldD {α : Type} (j : Json) (key : String) (dflt : α)
    (parse : Json → Option α) : Option α :=
  match j.getField key with
  | none => some dflt
  | some v => parse v

/-- Pydantic validation of a `TaskResult` from its serialized form. -/
def taskResultFromJson (j : Json) : Option TaskResult := do
  let tid ← (j.getField "task_id").bind Json.asStr
  let succ ← (j.getField "success").bind (fun v => match v with
    | .bool b => some b
    | _ => none)
  let output ← getFieldD j "output" none Json.asOptStr
  let error ← getFieldD j "error" none Json.asOptStr
  let etime ← getFieldD j "execution_time" none Json.asOptInt
  let meta ← getFieldD j "metadata" [] Json.asObj
  pure { task_id := tid, success := succ, output := output,
         error := error, execution_time := etime, metadata := meta }

/-- Validation of the nullable `result` field: null validates to none,
anything else must validate as a `TaskResult`. -/
def optResultFromJson : Json → Option (Option TaskResult)
  | .null => some none
  | v => (taskResultFromJson v).map some

/-- Pydantic validation of a `Task` from its serialized form. -/
def taskFromJson (j : Json) : Option Task := do
  let tid ← (j.getField "task_id").bind Json.asStr
  let name ← (j.getField "name").bind Json.asStr
  let desc ← (j.getField "description").bind Json.asStr
  let prio ← getFieldD j "priority" 0 Json.asInt
  let deps ← getFieldD j "dependencies" [] Json.asStrList
  let ctx ← getFieldD j "context" [] Json.asObj
  let status ← getFieldD j "status" "pending" Json.asStr
  let assigned ← getFieldD j "assigned_instance" none Json.asOptStr
  let result ← getFieldD j "result" none optResultFromJson
  let created ← (j.getField "created_at").bind Json.asInt
  let started ← getFieldD j "started_at" none Json.asOptInt
  let completed ← getFieldD j "completed_at" none Json.asOptInt
  pure { task_id := tid, name := name, description := desc,
         priority := prio, dependencies := deps, context := ctx,
         status := status, assigned_instance := assigned,
         result := result, created_at := created,
         started_at := started, completed_at := completed }

/-- Validation of the task map: each value must validate as a task. -/
def tasksFromJson : List (String × Json) → Option (List (String × Task))
  | [] => some []
  | (k, v) :: rest => do
    let t ← taskFromJson v
    let ts ← tasksFromJson rest
    pure ((k, t) :: ts)

/-- Validation of the instance map: each value must be a string. -/
def instancesFromJson : List (String × Json) → Option (List (String × String))
  | [] => some []
  | (k, v) :: rest => do
    let w ← v.asStr
    let ws ← instancesFromJson rest
    pure ((k, w) :: ws)

/-- Pydantic validation of a `Session` from its persisted form, as
`SessionManager.get_session` performs on a cache miss. -/
def sessionFromJson (j : Json) : Option Session := do
  let sid ← (j.getField "session_id").bind Json.asStr
  let name ← (j.getField "name").bind Json.asStr
  let desc ← getFieldD j "description" none Json.asOptStr
  let status ← getFieldD j "status" "active" Json.asStr
  let tasks ← getFieldD j "tasks" [] (fun v => v.asObj.bind tasksFromJson)
  let insts ← getFieldD j "instances" [] (fun v => v.asObj.bind instancesFromJson)
  let meta ← getFieldD j "metadata" [] Json.asObj
  let created ← (j.getField "created_at").bind Json.asInt
  let updated ← (j.getField "updated_at").bind Json.asInt
  let completed ← getFieldD j "completed_at" none Json.asOptInt
  pure { session_id := sid, name := name, description := desc,
         status := status, tasks := tasks, instances := insts,
         metadata := meta, created_at := created,
         updated_at := updated, completed_at := completed }

/-! ### `SessionManager.get_session_status` -/

/-- Per-status task counts, the `task_counts` dict initialised with the
four known status keys. -/
structure TaskCounts where
  pending : Nat := 0
  running : Nat := 0
  completed : Nat := 0
  failed : Nat := 0
deriving Repr

/-- Sum of the four per-status counts. -/
def TaskCounts.total (c : TaskCounts) : Nat :=
  c.pending + c.running + c.completed + c.failed

/-- One `task_counts[task.status] += 1` step: a status outside the four
initialised keys raises `KeyError`. -/
def bumpCount (c : TaskCounts) (status : String) : Except String TaskCounts :=
  if status = "pending" then .ok { c with pending := c.pending + 1 }
  else if status = "running" then .ok { c with running := c.running + 1 }
  else if status = "completed" then .ok { c with completed := c.completed + 1 }
  else if status = "failed" then .ok { c with failed := c.failed + 1 }
  else .error ("KeyError: " ++ status)

/-- The counting loop `for task in session.tasks.values()`. -/
def countTaskStatuses : List (String × Task) → TaskCounts → Except String TaskCounts
  | [], c => .ok c
  | (_, t) :: rest, c =>
    match bumpCount c t.status with
    | .ok c2 => countTaskStatuses rest c2
    | .error e => .error e

/-- Status snapshot returned by `get_session_status`. -/
structure SessionStatusInfo where
  session_id : String
  name : String
  status : String
  task_counts : TaskCounts
  total_tasks : Nat
  instances : Nat
  created_at : Int
  updated_at : Int
  completed_at : Option Int
  metadata : List (String × Json)

/-- Model of `get_session_status` for a resolved session (the manager
returns `None` before this point when the session id is unknown). -/
def getSessionStatus (s : Session) : Except String SessionStatusInfo :=
  match countTaskStatuses s.tasks {} with
  | .error e => .error e
  | .ok counts =>
    .ok { session_id := s.session_id, name := s.name, status := s.status,
          task_counts := counts, total_tasks := s.tasks.length,
          instances := s.instances.length, created_at := s.created_at,
          updated_at := s.updated_at, completed_at := s.completed_at,
          metadata := s.metadata }

/-! ### `ClaudeCodeInstance.execute_query` -/

/-- Outcome of one attempt of the underlying `query(...)` call as seen
by `execute_query`'s try/except (claude_instance.py lines 171-281). -/
inductive QueryOutcome where
  | ok (output : String) (messages : List String)
  | timeout
  | cliNotFound (msg : String)
  | connErr (msg : String)
  | jsonErr (msg : String)
  | otherErr (msg : String)

/-- Result record of a successful attempt (claude_instance.py line 204):
success, output, messages, prompt — note there is no "error" key. -/
def successRecord (prompt output : String) (messages : List String) :
    List (String × Json) :=
  [("success", .bool true), ("output", .str output),
   ("messages", .arr (messages.map .str)), ("prompt", .str prompt)]

/-- Result record of a terminal failure inside the retry loop: success,
error, output, messages, prompt in that key order. -/
def failRecord (prompt error : String) : List (String × Json) :=
  [("success", .bool false), ("error", .str error), ("output", .str ""),
   ("messages", .arr []), ("prompt", .str prompt)]

/-- Result record returned when the instance could not be started
(claude_instance.py line 159) — this one carries no "prompt" key. -/
def initFailRecord : List (String × Json) :=
  [("success", .bool false),
   ("error", .str "Failed to initialize Claude instance"),
   ("output", .str ""), ("messages", .arr [])]

/-- Observable behaviour of one `execute_query` call: the returned (or
raised) result, the backoff sleeps performed, and how many attempts of
the underlying query were made. -/
structure QueryTrace where
  result : Except String (List (String × Json))
  sleeps : List Nat
  attempts : Nat

/-- The retry loop `for attempt in range(max_retries + 1)`.  `fuel` is
the number of remaining loop iterations (initially `maxRetries + 1`);
the `fuel = 0` case is the code after the loop ("Unexpected termination
of retry loop"), unreachable from the initial call. -/
def retryLoop (prompt : String) (maxRetries : Nat) (outcomes : Nat → QueryOutcome) :
    Nat → Nat → List Nat → List (String × Json) × List Nat × Nat
  | attempt, 0, sleeps =>
    (failRecord prompt "Unexpected termination of retry loop", sleeps, attempt)
  | attempt, fuel + 1, sleeps =>
    match outcomes attempt with
    | .ok output messages =>
      (successRecord prompt output messages, sleeps, attempt + 1)
    | .timeout =>
      if attempt == maxRetries then
        (failRecord prompt "Query timed out after multiple attempts", sleeps, attempt + 1)
      else
        retryLoop prompt maxRetries outcomes (attempt + 1) fuel (sleeps ++ [2 ^ attempt])
    | .cliNotFound _ =>
      (failRecord prompt
        "Claude Code CLI not found. Please install claude-code-sdk with: pip install claude-code-sdk",
       sleeps, attempt + 1)
    | .connErr m =>
      if attempt == maxRetries then
        (failRecord prompt
          ("Claude Code SDK error after " ++ toString (maxRetries + 1) ++ " attempts: " ++ m),
         sleeps, attempt + 1)
      else
        retryLoop prompt maxRetries outcomes (attempt + 1) fuel (sleeps ++ [2 ^ attempt])
    | .jsonErr m =>
      (failRecord prompt ("Claude Code SDK JSON error: " ++ m), sleeps, attempt + 1)
    | .otherErr m =>
      if attempt == maxRetries then
        (failRecord prompt
          ("Unexpected error after " ++ toString (maxRetries + 1) ++ " attempts: " ++ m),
         sleeps, attempt + 1)
      else
        retryLoop prompt maxRetries outcomes (attempt + 1) fuel (sleeps ++ [2 ^ attempt])

/-- Model of `execute_query`.  `running` is `self.is_running` on entry
(status idle or active); when false, `start()` is attempted first:
it raises `ValueError` when the worktree does not exist
(claude_instance.py line 108), else succeeds exactly when the
connection probe `testConn` does.  A still-not-running instance yields
the init-failure record (line 159). -/
def executeQuery (worktreeExists running testConn : Bool) (prompt : String)
    (outcomes : Nat → QueryOutcome) (maxRetries : Nat) : QueryTrace :=
  if ¬running ∧ ¬worktreeExists then
    { result := .error "ValueError: Worktree does not exist", sleeps := [], attempts := 0 }
  else if ¬running ∧ ¬testConn then
    { result := .ok initFailRecord, sleeps := [], attempts := 0 }
  else
    let r := retryLoop prompt maxRetries outcomes 0 (maxRetries + 1) []
    { result := .ok r.1, sleeps := r.2.1, attempts := r.2.2 }

/-! ### Task graph scheduler (`_execute_tasks_with_dependencies`)

The scheduler's while-loop runs on a single-threaded asyncio event
loop: the launched `_execute_single_task` coroutines only make progress
while the loop awaits (`asyncio.sleep(0.1)`).  Which in-flight
coroutines finish during a given sleep is an environment choice,
supplied per iteration as an entry of `schedule : List (List String)`
(ignored by iterations that do not sleep).  The outcome of each task's
`instance.run_task` call is given by `oracle`. -/

/-- Success flag and payload of one `instance.run_task` call as read
back by `_execute_single_task` via `result.get("success", False)`,
`result.get("output")`, `result.get("error")`; an exception from
`run_task` is represented as success false with the exception text in
`error`. -/
structure RunOutcome where
  success : Bool
  output : Option String := none
  error : Option String := none

/-- State of one `_execute_tasks_with_dependencies` invocation.
`completed_tasks` (the done-set: every finished task id, failed ones
included) and `running_tasks` (keys of the running dict; its values are
the shared Task objects, looked up in `tasks`) are the loop's local
bookkeeping.  `started`/`finished` track which in-flight coroutines
have begun executing (acquired the semaphore) and which have finished
(written their result, released the semaphore) but are not yet
collected; `asyncio.Task.done()` is true exactly on `finished`.
`dispatchLog` records the order in which tasks were marked running (an
observation trace, not source state). -/
structure SchedState where
  tasks : List (String × Task)
  completed_tasks : List String := []
  running_tasks : List String := []
  started : List String := []
  finished : List String := []
  dispatchLog : List String := []

/-- In-place mutation of the task object stored under `id`. -/
def updateTask (tasks : List (String × Task)) (id : String) (f : Task → Task) :
    List (String × Task) :=
  tasks.map (fun p => if p.1 = id then (p.1, f p.2) else p)

/-- Readiness test of the loop (session.py lines 254-257): status
pending, not in the running dict, not in the done-set, and every
dependency in the done-set.  The done-set contains every finished task,
failed ones included. -/
def isReady (st : SchedState) (id : String) (t : Task) : Bool :=
  t.status == "pending" && !(st.running_tasks.contains id) &&
    !(st.completed_tasks.contains id) &&
    t.dependencies.all (st.completed_tasks.contains ·)

/-- The `ready_tasks` list, in task-map insertion order. -/
def readyTasks (st : SchedState) : List Task :=
  (st.tasks.filter (fun p => isReady st p.1 p.2)).map Prod.snd

/-- Stable insertion of a later-ready task after all already-placed
tasks of greater or equal priority. -/
def insertByPriority (t : Task) : List Task → List Task
  | [] => [t]
  | x :: xs => if x.priority ≥ t.priority then x :: insertByPriority t xs else t :: x :: xs

/-- `ready_tasks.sort(key=lambda t: t.priority, reverse=True)`: stable
sort, descending by priority. -/
def sortByPriorityDesc (l : List Task) : List Task :=
  l.foldl (fun acc t => insertByPriority t acc) []

/-- Scan `any(t.assigned_instance == instance.instance_id for t in
running_tasks.values())`. -/
def assignedToRunning (tasks : List (String × Task)) (running : List String)
    (inst : String) : Bool :=
  running.any (fun id => match alistFind tasks id with
    | some t => t.assigned_instance == some inst
    | none => false)

/-- The linear free-instance scan of session.py lines 269-274. -/
def findAvailable (tasks : List (String × Task)) (running : List String)
    (instances : List String) : Option String :=
  instances.find? (fun inst => !(assignedToRunning tasks running inst))

/-- Number of coroutines currently holding the semaphore, so that
`semaphore._value = maxConc - holders`. -/
def holders (st : SchedState) : Nat :=
  (st.started.filter (fun id => !(st.finished.contains id))).length

/-- Dispatch phase (session.py lines 264-285): walk the sorted ready
list; break when `len(running_tasks) >= semaphore._value`; skip a task
when no instance is free; otherwise mark it running, assign the
instance, and enter it into the running dict. -/
def dispatch (instances : List String) (maxConc : Nat) (now : Int) :
    List Task → SchedState → SchedState
  | [], st => st
  | t :: rest, st =>
    if st.running_tasks.length ≥ maxConc - holders st then st
    else
      match findAvailable st.tasks st.running_tasks instances with
      | some inst =>
        dispatch instances maxConc now rest
          { st with
            tasks := updateTask st.tasks t.task_id (fun tk =>
              { tk with assigned_instance := some inst, status := "running",
                        started_at := some now }),
            running_tasks := st.running_tasks ++ [t.task_id],
            dispatchLog := st.dispatchLog ++ [t.task_id] }
      | none => dispatch instances maxConc now rest st

/-- Effect of `_execute_single_task` finishing on the task object of
`id`: build the TaskResult from the run outcome, set status
completed/failed by its success flag, stamp completed_at.  (The
wall-clock execution_time is abstracted to `none`.) -/
def finishApply (oracle : String → RunOutcome) (now : Int) (id : String)
    (t : Task) : Task :=
  { t with
    result := some { task_id := id, success := (oracle id).success,
                     output := (oracle id).output, error := (oracle id).error,
                     execution_time := none,
                     metadata := match t.assigned_instance with
                       | some i => [("instance_id", Json.str i)]
                       | none => [] },
    status := if (oracle id).success then "completed" else "failed",
    completed_at := some now }

/-- In-place completion of task `id` in the task map. -/
def finishTask (oracle : String → RunOutcome) (now : Int)
    (tasks : List (String × Task)) (id : String) : List (String × Task) :=
  updateTask tasks id (finishApply oracle now id)

/-- One `await asyncio.sleep(0.1)` of the scheduler: every created
coroutine starts (acquires the semaphore — never blocking, since the
dispatch guard keeps the in-flight count within capacity), and the
environment's chosen subset `fin` of in-flight unfinished coroutines
runs to completion. -/
def sleepFinish (oracle : String → RunOutcome) (now : Int) (fin : List String)
    (st : SchedState) : SchedState :=
  let eligible := fin.dedup.filter
    (fun id => st.running_tasks.contains id && !(st.finished.contains id))
  { st with
    tasks := eligible.foldl (finishTask oracle now) st.tasks,
    started := st.running_tasks,
    finished := st.finished ++ eligible }

/-- Collection phase (session.py lines 289-299): every done coroutine
is removed from the running dict and its id added to the done-set. -/
def collect (st : SchedState) : SchedState :=
  { st with
    completed_tasks := st.completed_tasks ++ st.finished,
    running_tasks := st.running_tasks.filter (fun id => !(st.finished.contains id)),
    started := st.started.filter (fun id => !(st.finished.contains id)),
    finished := [] }

/-- Dispatch phase of one iteration: compute, sort and dispatch the
ready set. -/
def dispatchPhase (instances : List String) (maxConc : Nat) (now : Int)
    (st : SchedState) : SchedState :=
  dispatch instances maxConc now (sortByPriorityDesc (readyTasks st)) st

/-- One iteration of the while-loop body: compute and sort the ready
set, dispatch, then either collect the done coroutines (when there are
any: no sleep happens) or sleep (when nothing is done, or nothing is in
flight). -/
def stepIter (instances : List String) (maxConc : Nat) (oracle : String → RunOutcome)
    (now : Int) (fin : List String) (st : SchedState) : SchedState :=
  let st1 := dispatchPhase instances maxConc now st
  if st1.running_tasks.isEmpty then st1
  else if st1.finished.isEmpty then sleepFinish oracle now fin st1
  else collect st1

/-- The while-loop `while len(completed_tasks) < len(session.tasks)`,
driven by the environment schedule (one entry consumed per iteration;
entries of non-sleeping iterations are ignored). -/
def runSched (instances : List String) (maxConc : Nat) (oracle : String → RunOutcome)
    (now : Int) : List (List String) → SchedState → SchedState
  | [], st => st
  | fin :: rest, st =>
    if st.completed_tasks.length < st.tasks.length then
      runSched instances maxConc oracle now rest
        (stepIter instances maxConc oracle now fin st)
    else st

/-- Scheduler state at entry of `_execute_tasks_with_dependencies`. -/
def initState (s : Session) : SchedState := { tasks := s.tasks }

/-- Status of a task in a scheduler state. -/
def statusOf (st : SchedState) (id : String) : Option String :=
  (alistFind st.tasks id).map Task.status

/-- Model of `execute_session` (session.py lines 196-241): the guard
returns false on a non-active session without touching it; otherwise
the dependency loop runs and the session is marked completed.  (The
`except` branch — an internal scheduler error — is not modelled: the
modelled loop body does not raise.) -/
def executeSession (s : Session) (instances : List String) (maxConc : Nat)
    (oracle : String → RunOutcome) (now : Int) (schedule : List (List String)) :
    Bool × Session :=
  if s.status ≠ "active" then (false, s)
  else
    let final := runSched instances maxConc oracle now schedule (initState s)
    (true, { s with
      tasks := final.tasks,
      status := "completed",
      completed_at := some now,
      updated_at := now })

/-- Number of tasks whose status is currently "running". -/
def countRunningStatus (st : SchedState) : Nat :=
  (st.tasks.filter (fun p => p.2.status == "running")).length

/-- Invariant bundle of the scheduling loop, holding at entry and
preserved by every phase of the loop body. -/
structure SchedInv (maxConc : Nat) (oracle : String → RunOutcome)
    (st : SchedState) : Prop where
  keys_nodup : (st.tasks.map Prod.fst).Nodup
  key_coh : ∀ p ∈ st.tasks, p.2.task_id = p.1
  status_valid : ∀ p ∈ st.tasks, p.2.status = "pending" ∨ p.2.status = "running" ∨
    p.2.status = "completed" ∨ p.2.status = "failed"
  run_nodup : st.running_tasks.Nodup
  comp_nodup : st.completed_tasks.Nodup
  fin_nodup : st.finished.Nodup
  started_sub : ∀ id ∈ st.started, id ∈ st.running_tasks
  fin_sub_run : ∀ id ∈ st.finished, id ∈ st.running_tasks
  run_keys : ∀ id ∈ st.running_tasks, id ∈ st.tasks.map Prod.fst
  comp_keys : ∀ id ∈ st.completed_tasks, id ∈ st.tasks.map Prod.fst
  run_comp_disj : ∀ id ∈ st.running_tasks, id ∉ st.completed_tasks
  status_running : ∀ id t, alistFind st.tasks id = some t →
    (t.status = "running" ↔ id ∈ st.running_tasks ∧ id ∉ st.finished)
  status_terminal : ∀ id t, alistFind st.tasks id = some t →
    ((t.status = "completed" ∨ t.status = "failed") ↔
      id ∈ st.completed_tasks ∨ id ∈ st.finished)
  bound : st.running_tasks.length ≤ maxConc + st.finished.length
  assigned_uniq : ∀ id1 id2 t1 t2, id1 ∈ st.running_tasks → id2 ∈ st.running_tasks →
    id1 ≠ id2 → alistFind st.tasks id1 = some t1 → alistFind st.tasks id2 = some t2 →
    ∀ i, t1.assigned_instance = some i → t2.assigned_instance ≠ some i
  deps_done : ∀ id t, alistFind st.tasks id = some t → t.status ≠ "pending" →
    ∀ d ∈ t.dependencies, d ∈ st.completed_tasks
  outcome_comp : ∀ id t, alistFind st.tasks id = some t → t.status = "completed" →
    (oracle id).success = true
  outcome_fail : ∀ id t, alistFind st.tasks id = some t → t.status = "failed" →
    (oracle id).success = false

/-- Worker-level mutual exclusion: no instance is the
`assigned_instance` of two distinct tasks that both have status
"running". -/
def NoDoubleAssign (st : SchedState) : Prop :=
  ∀ id1 id2 t1 t2 i, alistFind st.tasks id1 = some t1 →
    alistFind st.tasks id2 = some t2 → id1 ≠ id2 →
    t1.status = "running" → t2.status = "running" →
    t1.assigned_instance = some i → t2.assigned_instance = some i → False

/-- Dependency discipline actually enforced by the loop: every
dependency of a running task is in the done-set, hence has a terminal
status — completed or failed. -/
def RunningDepsTerminal (st : SchedState) : Prop :=
  ∀ id t, alistFind st.tasks id = some t → t.status = "running" →
    ∀ d ∈ t.dependencies, d ∈ st.completed_tasks ∧
      ∃ dt, alistFind st.tasks d = some dt ∧
        (dt.status = "completed" ∨ dt.status = "failed")

/-- Terminal statuses reflect only the task's own execution outcome:
completed iff its own run succeeded — never inherited from a
dependency's failure. -/
def OutcomeDetermined (oracle : String → RunOutcome) (st : SchedState) : Prop :=
  ∀ id t, alistFind st.tasks id = some t →
    (t.status = "completed" → (oracle id).success = true) ∧
    (t.status = "failed" → (oracle id).success = false)

/-- Acyclicity of the dependency graph, witnessed by a rank function:
every dependency of a task has strictly smaller rank and refers to an
existing task of the map. -/
def DepsRanked (rank : String → Nat) (tasks : List (String × Task)) : Prop :=
  ∀ id t, alistFind tasks id = some t → ∀ d ∈ t.dependencies,
    rank d < rank id ∧ d ∈ tasks.map Prod.fst

/-! ### Concrete scenarios -/

/-- Task as `SessionManager.add_task` constructs it: status pending,
nothing assigned, no result. -/
def mkTask (id name desc : String) (priority : Int) (deps : List String) : Task :=
  { task_id := id, name := name, description := desc, priority := priority,
    dependencies := deps, created_at := 0 }

/-- Run outcome of an instance whose execution always succeeds. -/
def allOk : String → RunOutcome := fun _ => { success := true }

/-- Session of the priority/dependency scenario: A(priority 1, no
deps), B(priority 2, no deps), C(priority 1, deps [A, B]). -/
def sessionC8 : Session :=
  { session_id := "s-c8", name := "c8", created_at := 0, updated_at := 0,
    tasks := [("A", mkTask "A" "A" "task A" 1 []),
              ("B", mkTask "B" "B" "task B" 2 []),
              ("C", mkTask "C" "C" "task C" 1 ["A", "B"])] }

/-- Environment schedule of the scenario run: each dispatched task
finishes during the following sleep; collection iterations ignore
their entry. -/
def c8Schedule : List (List String) := [["B"], [], ["A"], [], ["C"], []]

/-- Loop state of the scenario after `n` iterations, one worker,
`max_concurrent = 2`. -/
def c8Run (n : Nat) : SchedState :=
  runSched ["w1"] 2 allOk 0 (c8Schedule.take n) (initState sessionC8)

/-- Session of the failing-dependency scenario: B depends on A. -/
def sessionAB : Session :=
  { session_id := "s-ab", name := "ab", created_at := 0, updated_at := 0,
    tasks := [("A", mkTask "A" "A" "task A" 0 []),
              ("B", mkTask "B" "B" "task B" 0 ["A"])] }

/-- Outcomes of the failing-dependency scenario: A's execution fails,
B's succeeds. -/
def oracleAB : String → RunOutcome :=
  fun id => if id = "A" then { success := false, error := some "boom" }
            else { success := true }

/-- Loop state of the failing-dependency scenario after `n` iterations,
one worker, `max_concurrent = 1`. -/
def abRun (n : Nat) : SchedState :=
  runSched ["w1"] 1 oracleAB 0 (([["A"], [], [], ["B"], []]).take n) (initState sessionAB)

/-- An already-completed session with no tasks. -/
def sessionDone : Session :=
  { session_id := "s-d", name := "d", status := "completed",
    created_at := 0, updated_at := 0 }

/-! ### Round-trip and helper lemmas -/

theorem asOptStr_optStrToJson (o : Option String) :
    Json.asOptStr (optStrToJson o) = some o := by
  cases o <;> rfl

theorem asOptInt_optIntToJson (o : Option Int) :
    Json.asOptInt (optIntToJson o) = some o := by
  cases o <;> rfl

theorem asStrList_map_str (xs : List String) :
    Json.asStrList (.arr (xs.map .str)) = some xs := by
  induction xs with
  | nil => rfl
  | cons x xs ih =>
    have h : strListFromJson (xs.map Json.str) = some xs := by
      simpa [Json.asStrList] using ih
    simp [Json.asStrList, strListFromJson, Json.asStr, h]

theorem taskResultFromJson_toJson (r : TaskResult) :
    taskResultFromJson (taskResultToJson r) = some r := by
  obtain ⟨tid, succ, output, error, etime, meta⟩ := r
  simp [taskResultToJson, taskResultFromJson, Json.getField, alistFind,
        getFieldD, Json.asStr, Json.asObj, asOptStr_optStrToJson,
        asOptInt_optIntToJson]

theorem optResultFromJson_toJson (o : Option TaskResult) :
    optResultFromJson (optResultToJson o) = some o := by
  cases o with
  | none => rfl
  | some r =>
    have h := taskResultFromJson_toJson r
    simp only [optResultToJson, taskResultToJson, optResultFromJson] at h ⊢
    simp [h]

theorem taskFromJson_toJson (t : Task) :
    taskFromJson (taskToJson t) = some t := by
  obtain ⟨tid, name, desc, prio, deps, ctx, status, assigned, result,
          created, started, completed⟩ := t
  simp [taskToJson, taskFromJson, Json.getField, alistFind, getFieldD,
        Json.asStr, Json.asInt, Json.asObj, asOptStr_optStrToJson,
        asOptInt_optIntToJson, asStrList_map_str, optResultFromJson_toJson]

theorem tasksFromJson_map (l : List (String × Task)) :
    tasksFromJson (l.map (fun p => (p.1, taskToJson p.2))) = some l := by
  induction l with
  | nil => rfl
  | cons p rest ih =>
    simp [tasksFromJson, taskFromJson_toJson, ih]

theorem instancesFromJson_map (l : List (String × String)) :
    instancesFromJson (l.map (fun p => (p.1, Json.str p.2))) = some l := by
  induction l with
  | nil => rfl
  | cons p rest ih =>
    simp [instancesFromJson, Json.asStr, ih]

theorem sessionFromJson_toJson (s : Session) :
    sessionFromJson (sessionToJson s) = some s := by
  obtain ⟨sid, name, desc, status, tasks, insts, meta, created, updated,
          completed⟩ := s
  simp [sessionToJson, sessionFromJson, Json.getField, alistFind,
        getFieldD, Json.asStr, Json.asInt, Json.asObj,
        asOptStr_optStrToJson, asOptInt_optIntToJson,
        tasksFromJson_map, instancesFromJson_map]


theorem countTaskStatuses_total (l : List (String × Task)) (c : TaskCounts)
    (h : ∀ p ∈ l, p.2.status = "pending" ∨ p.2.status = "running" ∨
      p.2.status = "completed" ∨ p.2.status = "failed") :
    ∃ c2, countTaskStatuses l c = .ok c2 ∧ c2.total = c.total + l.length := by
  induction l generalizing c with
  | nil => exact ⟨c, rfl, by simp⟩
  | cons p rest ih =>
    obtain ⟨k, t⟩ := p
    have hp := h (k, t) (by simp)
    have hrest : ∀ q ∈ rest, q.2.status = "pending" ∨ q.2.status = "running" ∨
        q.2.status = "completed" ∨ q.2.status = "failed" :=
      fun q hq => h q (by simp [hq])
    obtain ⟨c2, hc2, htot⟩ : ∃ c2, bumpCount c t.status = Except.ok c2 ∧
        c2.total = c.total + 1 := by
      rcases hp with h1 | h1 | h1 | h1 <;> rw [h1] <;>
        exact ⟨_, rfl, by simp [TaskCounts.total, bumpCount]; ring⟩
    obtain ⟨c3, h3, htot3⟩ := ih c2 hrest
    refine ⟨c3, ?_, ?_⟩
    · simp only [countTaskStatuses, hc2, h3]
    · rw [htot3, htot]
      simp [List.length_cons]
      omega

/-- C10: for a session all of whose tasks carry one of the four known
status strings, `get_session_status` returns a snapshot whose four
per-status counts sum exactly to `total_tasks`, the number of tasks in
the session, and the counting loop never hits its error branch; a
status outside the four initialised keys would make the
`task_counts[task.status]` lookup raise `KeyError`, so the precondition
makes that branch unreachable. -/
theorem get_session_status_counts (s : Session)
    (h : ∀ p ∈ s.tasks, p.2.status = "pending" ∨ p.2.status = "running" ∨
      p.2.status = "completed" ∨ p.2.status = "failed") :
    (∃ info, getSessionStatus s = Except.ok info ∧
      info.task_counts.total = info.total_tasks ∧
      info.total_tasks = s.tasks.length) ∧
    (∀ (c : TaskCounts) (status : String),
      status ≠ "pending" → status ≠ "running" → status ≠ "completed" →
      status ≠ "failed" →
      bumpCount c status = Except.error ("KeyError: " ++ status)) := by
  constructor
  · obtain ⟨c2, hc2, htot⟩ := countTaskStatuses_total s.tasks {} h
    refine ⟨{ session_id := s.session_id, name := s.name, status := s.status,
              task_counts := c2, total_tasks := s.tasks.length,
              instances := s.instances.length, created_at := s.created_at,
              updated_at := s.updated_at, completed_at := s.completed_at,
              metadata := s.metadata }, ?_, ?_, rfl⟩
    · simp [getSessionStatus, hc2]
    · simpa [TaskCounts.total] using htot
  · intro c status h1 h2 h3 h4
    simp [bumpCount, h1, h2, h3, h4]

theorem get_session_status_counts_witness :
    (∃ info, getSessionStatus sessionC8 = Except.ok info ∧
      info.task_counts.total = info.total_tasks ∧
      info.total_tasks = sessionC8.tasks.length) ∧
    (∀ (c : TaskCounts) (status : String),
      status ≠ "pending" → status ≠ "running" → status ≠ "completed" →
      status ≠ "failed" →
      bumpCount c status = Except.error ("KeyError: " ++ status)) :=
  get_session_status_counts sessionC8 (by decide)


theorem successRecord_keys (prompt o : String) (ms : List String) :
    (successRecord prompt o ms).map Prod.fst =
      ["success", "output", "messages", "prompt"] := rfl

theorem failRecord_keys (prompt e : String) :
    (failRecord prompt e).map Prod.fst =
      ["success", "error", "output", "messages", "prompt"] := rfl

theorem retryLoop_shape (prompt : String) (maxRetries : Nat)
    (outcomes : Nat → QueryOutcome) :
    ∀ fuel attempt sleeps,
      (∃ o ms, (retryLoop prompt maxRetries outcomes attempt fuel sleeps).1 =
        successRecord prompt o ms) ∨
      (∃ e, (retryLoop prompt maxRetries outcomes attempt fuel sleeps).1 =
        failRecord prompt e) := by
  intro fuel
  induction fuel with
  | zero => exact fun attempt sleeps => Or.inr ⟨_, rfl⟩
  | succ n ih =>
    intro attempt sleeps
    rw [retryLoop]
    split
    · exact Or.inl ⟨_, _, rfl⟩
    · split
      · exact Or.inr ⟨_, rfl⟩
      · exact ih _ _
    · exact Or.inr ⟨_, rfl⟩
    · split
      · exact Or.inr ⟨_, rfl⟩
      · exact ih _ _
    · exact Or.inr ⟨_, rfl⟩
    · split
      · exact Or.inr ⟨_, rfl⟩
      · exact ih _ _

/-- C6: when every attempt of `execute_query` times out with
`max_retries = 3`, exactly 3 retries follow the first attempt (4
attempts in total) with backoff sleeps of 1s, 2s, 4s (`2 ** attempt`),
and the final result is the timeout-specific failure record; fatal
errors (CLI not found, JSON decode) are never retried and fail on the
attempt that raised them with no backoff sleep. -/
theorem execute_query_timeout_retries (prompt : String)
    (outcomes : Nat → QueryOutcome) (h : ∀ n, outcomes n = QueryOutcome.timeout) :
    (executeQuery true true true prompt outcomes 3).sleeps = [1, 2, 4] ∧
    (executeQuery true true true prompt outcomes 3).attempts = 4 ∧
    (executeQuery true true true prompt outcomes 3).result =
      Except.ok (failRecord prompt "Query timed out after multiple attempts") ∧
    (∀ (outErr : Nat → QueryOutcome) (m : String), outErr 0 = QueryOutcome.cliNotFound m →
      (executeQuery true true true prompt outErr 3).attempts = 1 ∧
      (executeQuery true true true prompt outErr 3).sleeps = [] ∧
      (executeQuery true true true prompt outErr 3).result =
        Except.ok (failRecord prompt
          "Claude Code CLI not found. Please install claude-code-sdk with: pip install claude-code-sdk")) ∧
    (∀ (outErr : Nat → QueryOutcome) (m : String), outErr 0 = QueryOutcome.jsonErr m →
      (executeQuery true true true prompt outErr 3).attempts = 1 ∧
      (executeQuery true true true prompt outErr 3).sleeps = [] ∧
      (executeQuery true true true prompt outErr 3).result =
        Except.ok (failRecord prompt ("Claude Code SDK JSON error: " ++ m))) := by
  refine ⟨?_, ?_, ?_, ?_, ?_⟩
  · simp [executeQuery, retryLoop, h]
  · simp [executeQuery, retryLoop, h]
  · simp [executeQuery, retryLoop, h]
  · intro outErr m hm
    refine ⟨?_, ?_, ?_⟩ <;> simp [executeQuery, retryLoop, hm]
  · intro outErr m hm
    refine ⟨?_, ?_, ?_⟩ <;> simp [executeQuery, retryLoop, hm]

theorem execute_query_timeout_retries_witness :
    (executeQuery true true true "p" (fun _ => QueryOutcome.timeout) 3).sleeps = [1, 2, 4] :=
  (execute_query_timeout_retries "p" (fun _ => QueryOutcome.timeout) (fun _ => rfl)).1

/-- C7 counterexample: on a first-attempt success, `execute_query`
returns the record of claude_instance.py line 204, whose keys are
success, output, messages, prompt — there is no "error" key, so the
claimed uniform `{success, output, error, messages}` shape fails; and
when the instance is not running and its worktree does not exist, the
`start()` call raises `ValueError`, which propagates to the caller. -/
theorem execute_query_uniform_cex :
    (executeQuery true true true "p" (fun _ => QueryOutcome.ok "done" []) 3).result =
      Except.ok (successRecord "p" "done" []) ∧
    (successRecord "p" "done" []).map Prod.fst = ["success", "output", "messages", "prompt"] ∧
    "error" ∉ (successRecord "p" "done" []).map Prod.fst ∧
    (executeQuery false false false "p" (fun _ => QueryOutcome.ok "done" []) 3).result =
      Except.error "ValueError: Worktree does not exist" := by
  refine ⟨rfl, rfl, by decide, rfl⟩

/-- C7 amended: whenever the instance is running on entry, or its
worktree exists (so `start()` does not raise), `execute_query` returns
a result record containing the keys success, output and messages; the
"error" key is present whenever success is false, and absent on the
success record.  Only when the instance is not running and its worktree
is missing does an exception (`ValueError` from `start()`) escape. -/
theorem execute_query_record_fields (we running tc : Bool) (prompt : String)
    (outcomes : Nat → QueryOutcome) (maxRetries : Nat)
    (h : running = true ∨ we = true) :
    ∃ r, (executeQuery we running tc prompt outcomes maxRetries).result = Except.ok r ∧
      "success" ∈ r.map Prod.fst ∧ "output" ∈ r.map Prod.fst ∧
      "messages" ∈ r.map Prod.fst ∧
      (alistFind r "success" = some (Json.bool false) → "error" ∈ r.map Prod.fst) ∧
      (alistFind r "success" = some (Json.bool true) → "error" ∉ r.map Prod.fst) := by
  have loopCase : ∀ r, r = (retryLoop prompt maxRetries outcomes 0 (maxRetries + 1) []).1 →
      "success" ∈ r.map Prod.fst ∧ "output" ∈ r.map Prod.fst ∧
      "messages" ∈ r.map Prod.fst ∧
      (alistFind r "success" = some (Json.bool false) → "error" ∈ r.map Prod.fst) ∧
      (alistFind r "success" = some (Json.bool true) → "error" ∉ r.map Prod.fst) := by
    intro r hr
    rcases retryLoop_shape prompt maxRetries outcomes (maxRetries + 1) 0 [] with
      ⟨o, ms, hs⟩ | ⟨e, hs⟩
    · rw [hr, hs]
      refine ⟨by simp [successRecord], by simp [successRecord],
              by simp [successRecord], ?_, ?_⟩
      · intro hcontra
        simp [successRecord, alistFind] at hcontra
      · intro _
        simp [successRecord]
    · rw [hr, hs]
      refine ⟨by simp [failRecord], by simp [failRecord],
              by simp [failRecord], ?_, ?_⟩
      · intro _
        simp [failRecord]
      · intro hcontra
        simp [failRecord, alistFind] at hcontra
  by_cases hr : running = true
  · refine ⟨_, ?_, loopCase _ rfl⟩
    simp [executeQuery, hr]
  · have hwe : we = true := h.resolve_left hr
    by_cases htc : tc = true
    · refine ⟨_, ?_, loopCase _ rfl⟩
      simp [executeQuery, hr, hwe, htc]
    · refine ⟨initFailRecord, ?_, ?_, ?_, ?_, ?_, ?_⟩
      · simp [executeQuery, hr, hwe, htc]
      · simp [initFailRecord]
      · simp [initFailRecord]
      · simp [initFailRecord]
      · intro _
        simp [initFailRecord]
      · intro hcontra
        simp [initFailRecord, alistFind] at hcontra

theorem execute_query_record_fields_witness :
    ∃ r, (executeQuery true true true "p" (fun _ => QueryOutcome.timeout) 3).result =
        Except.ok r ∧
      "success" ∈ r.map Prod.fst ∧ "output" ∈ r.map Prod.fst ∧
      "messages" ∈ r.map Prod.fst ∧
      (alistFind r "success" = some (Json.bool false) → "error" ∈ r.map Prod.fst) ∧
      (alistFind r "success" = some (Json.bool true) → "error" ∉ r.map Prod.fst) :=
  execute_query_record_fields true true true "p" (fun _ => QueryOutcome.timeout) 3
    (Or.inl rfl)


/-- C5: `execute_session` on a session whose status is not "active"
returns false at once, with the session (all its tasks and fields)
untouched; and after a successful `execute_session` the session's
status is "completed", so a second call returns false with no
mutation. -/
theorem execute_session_inactive_guard
    (s s0 : Session) (instances instances0 : List String) (maxConc maxConc0 : Nat)
    (oracle oracle0 : String → RunOutcome) (now now0 : Int)
    (schedule schedule0 : List (List String))
    (h : s.status ≠ "active") :
    executeSession s instances maxConc oracle now schedule = (false, s) ∧
    ((executeSession s0 instances0 maxConc0 oracle0 now0 schedule0).1 = true →
      executeSession (executeSession s0 instances0 maxConc0 oracle0 now0 schedule0).2
          instances maxConc oracle now schedule =
        (false, (executeSession s0 instances0 maxConc0 oracle0 now0 schedule0).2)) := by
  have key : ∀ t : Session, t.status ≠ "active" →
      executeSession t instances maxConc oracle now schedule = (false, t) := by
    intro t ht
    simp [executeSession, ht]
  constructor
  · exact key s h
  · intro h1
    by_cases h0 : s0.status = "active"
    · have hc : (executeSession s0 instances0 maxConc0 oracle0 now0 schedule0).2.status =
          "completed" := by
        simp [executeSession, h0]
      exact key _ (by rw [hc]; decide)
    · simp [executeSession, h0] at h1

theorem execute_session_inactive_guard_witness :
    executeSession sessionDone [] 1 allOk 0 [] = (false, sessionDone) :=
  (execute_session_inactive_guard sessionDone sessionDone [] [] 1 1 allOk allOk 0 0 [] []
    (by decide)).1

/-- C8: in the scenario A(priority 1), B(priority 2), C(priority 1,
deps [A, B]) with one always-succeeding worker and max_concurrent 2,
the dispatch order is B, A, C (B before A since both are ready and B
has higher priority); at the point where C is dispatched both A and B
are already "completed" (after 4 iterations C is still pending and A, B
are completed); finally all three tasks are "completed" and
`execute_session` returns true. -/
theorem scenario_priority_and_dependency_order :
    (c8Run 6).dispatchLog = ["B", "A", "C"] ∧
    statusOf (c8Run 6) "A" = some "completed" ∧
    statusOf (c8Run 6) "B" = some "completed" ∧
    statusOf (c8Run 6) "C" = some "completed" ∧
    (c8Run 6).completed_tasks.length = (c8Run 6).tasks.length ∧
    (c8Run 4).dispatchLog = ["B", "A"] ∧
    statusOf (c8Run 4) "A" = some "completed" ∧
    statusOf (c8Run 4) "B" = some "completed" ∧
    statusOf (c8Run 4) "C" = some "pending" ∧
    (executeSession sessionC8 ["w1"] 2 allOk 0 c8Schedule).1 = true := by
  decide

/-- C1 counterexample: in the scenario where B depends on A and A's
execution fails, the loop adds failed A to its done-set, so B becomes
ready and transitions from "pending" to "running" (third iteration)
while its only dependency A has status "failed" — a failed dependency
does satisfy the source's readiness check. -/
theorem dependency_failed_satisfies_readiness_cex :
    statusOf (abRun 3) "A" = some "failed" ∧
    statusOf (abRun 3) "B" = some "running" ∧
    (abRun 3).dispatchLog = ["A", "B"] ∧
    (alistFind (abRun 3).tasks "B").map Task.dependencies = some ["A"] := by
  decide

/-- C2 counterexample: continuing the same run, B finishes according to
its own outcome: it ends "completed", not "failed", and its result
carries no error mentioning the failed dependency; the loop terminates
with the done-set covering both tasks. -/
theorem failed_dependency_dependent_completes_cex :
    statusOf (abRun 5) "A" = some "failed" ∧
    statusOf (abRun 5) "B" = some "completed" ∧
    (abRun 5).completed_tasks.length = (abRun 5).tasks.length ∧
    ((alistFind (abRun 5).tasks "B").bind Task.result).map TaskResult.success = some true ∧
    ((alistFind (abRun 5).tasks "B").bind Task.result).bind TaskResult.error = none := by
  decide

/-! ### Association-list and sorting lemmas -/

theorem alistFind_mem {α : Type} (l : List (String × α)) (k : String) (v : α)
    (h : alistFind l k = some v) : (k, v) ∈ l := by
  induction l with
  | nil => simp [alistFind] at h
  | cons p rest ih =>
    obtain ⟨k', v'⟩ := p
    by_cases hk : k' = k
    · subst hk
      simp [alistFind] at h
      simp [h]
    · simp [alistFind, hk] at h
      exact List.mem_cons_of_mem _ (ih h)

theorem mem_alistFind {α : Type} (l : List (String × α)) (k : String) (v : α)
    (hnd : (l.map Prod.fst).Nodup) (h : (k, v) ∈ l) : alistFind l k = some v := by
  induction l with
  | nil => simp at h
  | cons p rest ih =>
    obtain ⟨k', v'⟩ := p
    simp only [List.map_cons, List.nodup_cons] at hnd
    rcases List.mem_cons.1 h with h1 | h1
    · cases h1
      simp [alistFind]
    · have hk : k' ≠ k := by
        intro e
        subst e
        exact hnd.1 (List.mem_map_of_mem Prod.fst h1)
      simp only [alistFind, hk, if_false]
      exact ih hnd.2 h1

theorem alistFind_isSome {α : Type} (l : List (String × α)) (k : String)
    (h : k ∈ l.map Prod.fst) : ∃ v, alistFind l k = some v := by
  induction l with
  | nil => simp at h
  | cons p rest ih =>
    obtain ⟨k', v'⟩ := p
    by_cases hk : k' = k
    · subst hk
      exact ⟨v', by simp [alistFind]⟩
    · simp only [List.map_cons, List.mem_cons] at h
      rcases h with h | h

      · exact absurd h.symm hk
      · simpa [alistFind, hk] using ih h

theorem updateTask_keys (tasks : List (String × Task)) (id : String) (f : Task → Task) :
    (updateTask tasks id f).map Prod.fst = tasks.map Prod.fst := by
  simp only [updateTask, List.map_map]
  apply List.map_congr_left
  intro p _
  by_cases h : p.1 = id <;> simp [h]

theorem alistFind_updateTask_self (tasks : List (String × Task)) (id : String)
    (f : Task → Task) :
    alistFind (updateTask tasks id f) id = (alistFind tasks id).map f := by
  induction tasks with
  | nil => rfl
  | cons p rest ih =>
    obtain ⟨k, v⟩ := p
    by_cases hk : k = id
    · subst hk
      have h1 : updateTask ((k, v) :: rest) k f = (k, f v) :: updateTask rest k f := by
        simp [updateTask]
      rw [h1]
      simp [alistFind]
    · simp only [updateTask, List.map_cons] at *
      simp only [hk, if_false]
      simp only [alistFind, hk, if_false]
      exact ih

theorem alistFind_updateTask_other (tasks : List (String × Task)) (id id' : String)
    (f : Task → Task) (h : id' ≠ id) :
    alistFind (updateTask tasks id f) id' = alistFind tasks id' := by
  induction tasks with
  | nil => rfl
  | cons p rest ih =>
    obtain ⟨k, v⟩ := p
    by_cases hk : k = id
    · subst hk
      simp only [updateTask, List.map_cons, if_pos rfl]
      simp only [alistFind, Ne.symm h, if_false]
      exact ih
    · simp only [updateTask, List.map_cons, if_neg hk]
      by_cases hk' : k = id'
      · subst hk'
        simp [alistFind]
      · simp only [alistFind, hk', if_false]
        exact ih

theorem updateTask_key_coh (tasks : List (String × Task)) (id : String) (f : Task → Task)
    (hf : ∀ t, (f t).task_id = t.task_id)
    (h : ∀ p ∈ tasks, p.2.task_id = p.1) :
    ∀ p ∈ updateTask tasks id f, p.2.task_id = p.1 := by
  intro p hp
  simp only [updateTask, List.mem_map] at hp
  obtain ⟨q, hq, he⟩ := hp
  by_cases hqi : q.1 = id
  · rw [← he]
    simp [hqi, hf, h q hq]
  · rw [← he]
    simp [hqi, h q hq]

theorem foldl_finishTask_keys (oracle : String → RunOutcome) (now : Int)
    (el : List String) :
    ∀ tasks, ((el.foldl (finishTask oracle now) tasks).map Prod.fst) = tasks.map Prod.fst := by
  induction el with
  | nil => intro tasks; rfl
  | cons a el ih =>
    intro tasks
    simp only [List.foldl_cons]
    rw [ih, finishTask, updateTask_keys]

theorem alistFind_foldl_finishTask_not_mem (oracle : String → RunOutcome) (now : Int)
    (el : List String) :
    ∀ tasks id, id ∉ el →
      alistFind (el.foldl (finishTask oracle now) tasks) id = alistFind tasks id := by
  induction el with
  | nil => intro tasks id _; rfl
  | cons a el ih =>
    intro tasks id h
    simp only [List.mem_cons, not_or] at h
    simp only [List.foldl_cons]
    rw [ih _ _ h.2, finishTask, alistFind_updateTask_other _ _ _ _ h.1]

theorem alistFind_foldl_finishTask_mem (oracle : String → RunOutcome) (now : Int)
    (el : List String) :
    ∀ tasks id, el.Nodup → id ∈ el →
      alistFind (el.foldl (finishTask oracle now) tasks) id =
        (alistFind tasks id).map (finishApply oracle now id) := by
  induction el with
  | nil => intro tasks id _ h; simp at h
  | cons a el ih =>
    intro tasks id hnd h
    have hnd' := List.nodup_cons.1 hnd
    simp only [List.foldl_cons]
    rcases List.mem_cons.1 h with rfl | hmem
    · rw [alistFind_foldl_finishTask_not_mem _ _ _ _ _ hnd'.1, finishTask,
          alistFind_updateTask_self]
    · have hia : id ≠ a := fun e => hnd'.1 (e ▸ hmem)
      rw [ih _ _ hnd'.2 hmem, finishTask, alistFind_updateTask_other _ _ _ _ hia]

theorem insertByPriority_perm (t : Task) (l : List Task) :
    List.Perm (insertByPriority t l) (t :: l) := by
  induction l with
  | nil => exact List.Perm.refl _
  | cons x xs ih =>
    by_cases h : x.priority ≥ t.priority
    · simp only [insertByPriority, if_pos h]
      exact (ih.cons x).trans (List.Perm.swap t x xs)
    · simp only [insertByPriority, if_neg h]
      exact List.Perm.refl _

theorem sortByPriorityDesc_aux (l : List Task) :
    ∀ acc, List.Perm (l.foldl (fun acc t => insertByPriority t acc) acc) (acc ++ l) := by
  induction l with
  | nil => intro acc; simp
  | cons t l ih =>
    intro acc
    simp only [List.foldl_cons]
    exact (ih (insertByPriority t acc)).trans
      (((insertByPriority_perm t acc).append_right l).trans List.perm_middle.symm)

theorem sortByPriorityDesc_perm (l : List Task) :
    List.Perm (sortByPriorityDesc l) l := by
  simpa [sortByPriorityDesc] using sortByPriorityDesc_aux l []

theorem length_filter_partition (l : List String) (p : String → Bool) :
    (l.filter p).length + (l.filter (fun x => !p x)).length = l.length := by
  induction l with
  | nil => rfl
  | cons x xs ih => by_cases h : p x = true <;> simp [List.filter_cons, h] <;> omega

theorem filter_contains_perm (l sub : List String) (hl : l.Nodup) (hsub : sub.Nodup)
    (hss : ∀ x ∈ sub, x ∈ l) :
    List.Perm (l.filter (fun x => sub.contains x)) sub := by
  apply (List.perm_ext_iff_of_nodup (hl.filter _) hsub).2
  intro a
  simp only [List.mem_filter, List.contains_iff_exists_mem_beq]
  constructor
  · rintro ⟨-, x, hx, he⟩
    rwa [show a = x from by simpa using he]
  · intro h
    exact ⟨hss a h, a, h, by simp⟩

theorem length_filter_not_contains (l sub : List String) (hl : l.Nodup)
    (hsub : sub.Nodup) (hss : ∀ x ∈ sub, x ∈ l) :
    (l.filter (fun x => !(sub.contains x))).length + sub.length = l.length := by
  have hperm := (filter_contains_perm l sub hl hsub hss).length_eq
  have hpart := length_filter_partition l (fun x => sub.contains x)
  omega

theorem countRunningStatus_eq (maxConc : Nat) (oracle : String → RunOutcome)
    (st : SchedState) (inv : SchedInv maxConc oracle st) :
    countRunningStatus st =
      (st.running_tasks.filter (fun id => !(st.finished.contains id))).length := by
  have hA : countRunningStatus st =
      ((st.tasks.filter (fun p => p.2.status == "running")).map Prod.fst).length := by
    simp [countRunningStatus]
  rw [hA]
  have d1 : ((st.tasks.filter (fun p => p.2.status == "running")).map Prod.fst).Nodup :=
    inv.keys_nodup.sublist ((List.filter_sublist _).map _)
  have d2 : (st.running_tasks.filter (fun id => !(st.finished.contains id))).Nodup :=
    inv.run_nodup.filter _
  refine ((List.perm_ext_iff_of_nodup d1 d2).2 ?_).length_eq
  intro a
  constructor
  · intro ha
    simp only [List.mem_map, List.mem_filter] at ha
    obtain ⟨p, ⟨hp, hps⟩, hpa⟩ := ha
    obtain ⟨k, t⟩ := p
    simp only at hpa
    subst hpa
    have hfind := mem_alistFind _ _ _ inv.keys_nodup hp
    have hrun := (inv.status_running _ _ hfind).1 (by simpa using hps)
    simp only [List.mem_filter]
    refine ⟨hrun.1, ?_⟩
    simpa using hrun.2
  · intro ha
    simp only [List.mem_filter] at ha
    obtain ⟨har, hanf⟩ := ha
    obtain ⟨t, hfind⟩ := alistFind_isSome _ _ (inv.run_keys a har)
    have hnf : a ∉ st.finished := by simpa using hanf
    have hst := (inv.status_running _ _ hfind).2 ⟨har, hnf⟩
    simp only [List.mem_map, List.mem_filter]
    exact ⟨(a, t), ⟨alistFind_mem _ _ _ hfind, by simp [hst]⟩, rfl⟩

theorem findAvailable_spec (tasks : List (String × Task)) (running : List String)
    (instances : List String) (inst : String)
    (h : findAvailable tasks running instances = some inst) :
    ∀ id ∈ running, ∀ t, alistFind tasks id = some t →
      t.assigned_instance ≠ some inst := by
  intro id hid t hfind hassigned
  have hp := List.find?_some h
  simp only [Bool.not_eq_true'] at hp
  simp only [assignedToRunning, List.any_eq_false] at hp
  have h2 := hp id hid
  rw [hfind] at h2
  simp [hassigned] at h2

theorem countRunningStatus_le (maxConc : Nat) (oracle : String → RunOutcome)
    (st : SchedState) (inv : SchedInv maxConc oracle st) :
    countRunningStatus st ≤ maxConc := by
  rw [countRunningStatus_eq maxConc oracle st inv]
  have h := length_filter_not_contains st.running_tasks st.finished inv.run_nodup
    inv.fin_nodup inv.fin_sub_run
  have hb := inv.bound
  omega

theorem updateTask_status_valid (tasks : List (String × Task)) (id : String)
    (f : Task → Task)
    (hf : ∀ tk : Task, (f tk).status = "pending" ∨ (f tk).status = "running" ∨
      (f tk).status = "completed" ∨ (f tk).status = "failed")
    (h : ∀ p ∈ tasks, p.2.status = "pending" ∨ p.2.status = "running" ∨
      p.2.status = "completed" ∨ p.2.status = "failed") :
    ∀ p ∈ updateTask tasks id f, p.2.status = "pending" ∨ p.2.status = "running" ∨
      p.2.status = "completed" ∨ p.2.status = "failed" := by
  intro p hp
  simp only [updateTask, List.mem_map] at hp
  obtain ⟨q, hq, he⟩ := hp
  by_cases hqi : q.1 = id
  · rw [← he, if_pos hqi]
    exact hf q.2
  · rw [← he, if_neg hqi]
    exact h q hq

theorem foldl_finishTask_status_valid (oracle : String → RunOutcome) (now : Int)
    (el : List String) :
    ∀ tasks, (∀ p ∈ tasks, p.2.status = "pending" ∨ p.2.status = "running" ∨
      p.2.status = "completed" ∨ p.2.status = "failed") →
    ∀ p ∈ el.foldl (finishTask oracle now) tasks, p.2.status = "pending" ∨
      p.2.status = "running" ∨ p.2.status = "completed" ∨ p.2.status = "failed" := by
  induction el with
  | nil => exact fun tasks h => h
  | cons a el ih =>
    intro tasks h
    simp only [List.foldl_cons]
    apply ih
    apply updateTask_status_valid
    · intro tk
      by_cases hs : (oracle a).success
      · right; right; left
        simp [finishApply, hs]
      · right; right; right
        simp [finishApply, hs]
    · exact h

theorem dispatch_step_inv (maxConc : Nat) (oracle : String → RunOutcome)
    (st : SchedState) (inv : SchedInv maxConc oracle st)
    (t : Task) (inst : String) (now : Int)
    (hfind : alistFind st.tasks t.task_id = some t)
    (hnrun : t.task_id ∉ st.running_tasks)
    (hncomp : t.task_id ∉ st.completed_tasks)
    (hdeps : ∀ d ∈ t.dependencies, d ∈ st.completed_tasks)
    (hguard : st.running_tasks.length < maxConc - holders st)
    (hinst : ∀ id ∈ st.running_tasks, ∀ t', alistFind st.tasks id = some t' →
      t'.assigned_instance ≠ some inst) :
    SchedInv maxConc oracle
      { st with
        tasks := updateTask st.tasks t.task_id (fun tk =>
          { tk with assigned_instance := some inst, status := "running",
                    started_at := some now }),
        running_tasks := st.running_tasks ++ [t.task_id],
        dispatchLog := st.dispatchLog ++ [t.task_id] } := by
  set g : Task → Task := fun tk =>
    { tk with assigned_instance := some inst, status := "running",
              started_at := some now } with hg
  have hkeys : (updateTask st.tasks t.task_id g).map Prod.fst = st.tasks.map Prod.fst :=
    updateTask_keys _ _ _
  have hfind_self : alistFind (updateTask st.tasks t.task_id g) t.task_id = some (g t) := by
    rw [alistFind_updateTask_self, hfind]
    rfl
  have hfind_other : ∀ id, id ≠ t.task_id →
      alistFind (updateTask st.tasks t.task_id g) id = alistFind st.tasks id :=
    fun id h => alistFind_updateTask_other _ _ _ _ h
  have htid_keys : t.task_id ∈ st.tasks.map Prod.fst :=
    List.mem_map_of_mem Prod.fst (alistFind_mem _ _ _ hfind)
  have hfin_not_tid : t.task_id ∉ st.finished := fun h => hnrun (inv.fin_sub_run _ h)
  refine
    { keys_nodup := ?_, key_coh := ?_, status_valid := ?_, run_nodup := ?_,
      comp_nodup := inv.comp_nodup, fin_nodup := inv.fin_nodup, started_sub := ?_,
      fin_sub_run := ?_, run_keys := ?_, comp_keys := ?_,
      run_comp_disj := ?_, status_running := ?_, status_terminal := ?_, bound := ?_,
      assigned_uniq := ?_, deps_done := ?_, outcome_comp := ?_, outcome_fail := ?_ }
  · simpa only [hkeys] using inv.keys_nodup
  · exact updateTask_key_coh _ _ _ (fun tk => rfl) inv.key_coh
  · apply updateTask_status_valid
    · intro tk
      right
      left
      simp [hg]
    · exact inv.status_valid
  · exact inv.run_nodup.append (List.nodup_singleton _) (List.disjoint_singleton.2 hnrun)
  · intro id h
    exact List.mem_append_left _ (inv.started_sub id h)
  · intro id h
    exact List.mem_append_left _ (inv.fin_sub_run id h)
  · intro id hid
    rcases List.mem_append.1 hid with h | h
    · simpa only [hkeys] using inv.run_keys id h
    · simp only [List.mem_singleton] at h
      subst h
      simpa only [hkeys] using htid_keys
  · intro id hid
    simpa only [hkeys] using inv.comp_keys id hid
  · intro id hid
    rcases List.mem_append.1 hid with h | h
    · exact inv.run_comp_disj id h
    · simp only [List.mem_singleton] at h
      subst h
      exact hncomp
  · intro id t' hfind'
    by_cases hid : id = t.task_id
    · subst hid
      rw [hfind_self] at hfind'
      have ht' : t' = g t := by injection hfind' with h; exact h.symm
      subst ht'
      constructor
      · intro _
        exact ⟨List.mem_append_right _ (by simp), hfin_not_tid⟩
      · intro _
        simp [hg]
    · rw [hfind_other id hid] at hfind'
      have horig := inv.status_running id t' hfind'
      constructor
      · intro hs
        obtain ⟨h1, h2⟩ := horig.1 hs
        exact ⟨List.mem_append_left _ h1, h2⟩
      · rintro ⟨h1, h2⟩
        rcases List.mem_append.1 h1 with h1 | h1
        · exact horig.2 ⟨h1, h2⟩
        · simp only [List.mem_singleton] at h1
          exact absurd h1 hid
  · intro id t' hfind'
    by_cases hid : id = t.task_id
    · subst hid
      rw [hfind_self] at hfind'
      have ht' : t' = g t := by injection hfind' with h; exact h.symm
      subst ht'
      constructor
      · intro hs
        rcases hs with hs | hs <;> simp [hg] at hs
      · intro hs
        rcases hs with hs | hs
        · exact absurd hs hncomp
        · exact absurd hs hfin_not_tid
    · rw [hfind_other id hid] at hfind'
      exact inv.status_terminal id t' hfind'
  · have := Nat.sub_le maxConc (holders st)
    simp only [List.length_append, List.length_singleton]
    omega
  · intro id1 id2 t1 t2 h1 h2 hne hf1 hf2 i hi1 hi2
    by_cases b1 : id1 = t.task_id
    · subst b1
      by_cases b2 : id2 = t.task_id
      · exact hne b2.symm
      · rw [hfind_self] at hf1
        have ht1 : t1 = g t := by injection hf1 with h; exact h.symm
        have hiinst : i = inst := by
          rw [ht1] at hi1
          simp [hg] at hi1
          exact hi1.symm
        subst hiinst
        have h2r : id2 ∈ st.running_tasks := by
          rcases List.mem_append.1 h2 with h | h
          · exact h
          · simp only [List.mem_singleton] at h
            exact absurd h b2
        rw [hfind_other id2 b2] at hf2
        exact hinst id2 h2r t2 hf2 hi2
    · by_cases b2 : id2 = t.task_id
      · subst b2
        rw [hfind_self] at hf2
        have ht2 : t2 = g t := by injection hf2 with h; exact h.symm
        have hiinst : i = inst := by
          rw [ht2] at hi2
          simp [hg] at hi2
          exact hi2.symm
        subst hiinst
        have h1r : id1 ∈ st.running_tasks := by
          rcases List.mem_append.1 h1 with h | h
          · exact h
          · simp only [List.mem_singleton] at h
            exact absurd h b1
        rw [hfind_other id1 b1] at hf1
        exact hinst id1 h1r t1 hf1 hi1
      · have h1r : id1 ∈ st.running_tasks := by
          rcases List.mem_append.1 h1 with h | h
          · exact h
          · simp only [List.mem_singleton] at h
            exact absurd h b1
        have h2r : id2 ∈ st.running_tasks := by
          rcases List.mem_append.1 h2 with h | h
          · exact h
          · simp only [List.mem_singleton] at h
            exact absurd h b2
        rw [hfind_other id1 b1] at hf1
        rw [hfind_other id2 b2] at hf2
        exact inv.assigned_uniq id1 id2 t1 t2 h1r h2r hne hf1 hf2 i hi1 hi2
  · intro id t' hfind' hstat d hd
    by_cases hid : id = t.task_id
    · subst hid
      rw [hfind_self] at hfind'
      have ht' : t' = g t := by injection hfind' with h; exact h.symm
      subst ht'
      exact hdeps d hd
    · rw [hfind_other id hid] at hfind'
      exact inv.deps_done id t' hfind' hstat d hd
  · intro id t' hfind' hstat
    by_cases hid : id = t.task_id
    · subst hid
      rw [hfind_self] at hfind'
      have ht' : t' = g t := by injection hfind' with h; exact h.symm
      subst ht'
      simp [hg] at hstat
    · rw [hfind_other id hid] at hfind'
      exact inv.outcome_comp id t' hfind' hstat
  · intro id t' hfind' hstat
    by_cases hid : id = t.task_id
    · subst hid
      rw [hfind_self] at hfind'
      have ht' : t' = g t := by injection hfind' with h; exact h.symm
      subst ht'
      simp [hg] at hstat
    · rw [hfind_other id hid] at hfind'
      exact inv.outcome_fail id t' hfind' hstat

theorem dispatch_inv (instances : List String) (maxConc : Nat)
    (oracle : String → RunOutcome) (now : Int) (rl : List Task) :
    ∀ (st : SchedState),
      SchedInv maxConc oracle st →
      (rl.map Task.task_id).Nodup →
      (∀ t ∈ rl, alistFind st.tasks t.task_id = some t ∧ t.status = "pending" ∧
        t.task_id ∉ st.running_tasks ∧ t.task_id ∉ st.completed_tasks ∧
        (∀ d ∈ t.dependencies, d ∈ st.completed_tasks)) →
      SchedInv maxConc oracle (dispatch instances maxConc now rl st) ∧
      (dispatch instances maxConc now rl st).completed_tasks = st.completed_tasks ∧
      (dispatch instances maxConc now rl st).finished = st.finished := by
  induction rl with
  | nil =>
    intro st inv _ _
    exact ⟨inv, rfl, rfl⟩
  | cons t rest ih =>
    intro st inv hnd hprops
    obtain ⟨hfind, hpend, hnrun, hncomp, hdeps⟩ := hprops t (List.mem_cons_self t rest)
    have hnd2 := List.nodup_cons.1 (by simpa using hnd :
      (t.task_id :: rest.map Task.task_id).Nodup)
    by_cases hguard : st.running_tasks.length ≥ maxConc - holders st
    · simp only [dispatch, if_pos hguard]
      exact ⟨inv, by trivial, by trivial⟩
    · cases hfa : findAvailable st.tasks st.running_tasks instances with
      | none =>
        simp only [dispatch, if_neg hguard, hfa]
        exact ih st inv hnd2.2 (fun t' ht' => hprops t' (List.mem_cons_of_mem t ht'))
      | some inst =>
        simp only [dispatch, if_neg hguard, hfa]
        have hinst := findAvailable_spec _ _ _ _ hfa
        have inv' := dispatch_step_inv maxConc oracle st inv t inst now hfind hnrun
          hncomp hdeps (lt_of_not_ge hguard) hinst
        apply ih _ inv' hnd2.2
        intro t' ht'
        obtain ⟨hf', hp', hr', hc', hd'⟩ := hprops t' (List.mem_cons_of_mem t ht')
        have hne : t'.task_id ≠ t.task_id := fun e =>
          hnd2.1 (e ▸ List.mem_map_of_mem Task.task_id ht')
        refine ⟨?_, hp', ?_, hc', hd'⟩
        · show alistFind (updateTask st.tasks t.task_id (fun tk =>
            { tk with assigned_instance := some inst, status := "running",
                      started_at := some now })) t'.task_id = some t'
          rw [alistFind_updateTask_other _ _ _ _ hne]
          exact hf'
        · intro hmem
          rcases List.mem_append.1 hmem with h | h
          · exact hr' h
          · simp only [List.mem_singleton] at h
            exact hne h

theorem foldl_finishTask_key_coh (oracle : String → RunOutcome) (now : Int)
    (el : List String) :
    ∀ tasks, (∀ p ∈ tasks, p.2.task_id = p.1) →
      ∀ p ∈ el.foldl (finishTask oracle now) tasks, p.2.task_id = p.1 := by
  induction el with
  | nil => intro tasks h; exact h
  | cons a el ih =>
    intro tasks h
    simp only [List.foldl_cons]
    exact ih _ (updateTask_key_coh _ _ _ (fun tk => rfl) h)

theorem sleepFinish_inv_aux (maxConc : Nat) (oracle : String → RunOutcome)
    (now : Int) (el : List String) (st : SchedState) (inv : SchedInv maxConc oracle st)
    (hel_nodup : el.Nodup)
    (hel_run : ∀ id ∈ el, id ∈ st.running_tasks)
    (hel_nfin : ∀ id ∈ el, id ∉ st.finished) :
    SchedInv maxConc oracle
      { st with
        tasks := el.foldl (finishTask oracle now) st.tasks,
        started := st.running_tasks,
        finished := st.finished ++ el } := by
  have hfind_mem : ∀ id, id ∈ el →
      alistFind (el.foldl (finishTask oracle now) st.tasks) id =
        (alistFind st.tasks id).map (finishApply oracle now id) :=
    fun id hid => alistFind_foldl_finishTask_mem oracle now el st.tasks id hel_nodup hid
  have hfind_not : ∀ id, id ∉ el →
      alistFind (el.foldl (finishTask oracle now) st.tasks) id =
        alistFind st.tasks id :=
    fun id hid => alistFind_foldl_finishTask_not_mem oracle now el st.tasks id hid
  have hkeys : (el.foldl (finishTask oracle now) st.tasks).map Prod.fst =
      st.tasks.map Prod.fst := foldl_finishTask_keys oracle now el st.tasks
  refine
    { keys_nodup := ?_, key_coh := ?_, status_valid := ?_, run_nodup := inv.run_nodup,
      comp_nodup := inv.comp_nodup, fin_nodup := ?_, started_sub := ?_,
      fin_sub_run := ?_,
      run_keys := ?_, comp_keys := ?_, run_comp_disj := inv.run_comp_disj,
      status_running := ?_, status_terminal := ?_, bound := ?_,
      assigned_uniq := ?_, deps_done := ?_, outcome_comp := ?_, outcome_fail := ?_ }
  · simpa only [hkeys] using inv.keys_nodup
  · exact foldl_finishTask_key_coh oracle now el st.tasks inv.key_coh
  · exact foldl_finishTask_status_valid oracle now el st.tasks inv.status_valid
  · refine inv.fin_nodup.append hel_nodup (List.disjoint_left.2 ?_)
    intro a ha hae
    exact hel_nfin a hae ha
  · intro id h
    exact h
  · intro id h
    rcases List.mem_append.1 h with h | h
    · exact inv.fin_sub_run id h
    · exact hel_run id h
  · intro id hid
    simpa only [hkeys] using inv.run_keys id hid
  · intro id hid
    simpa only [hkeys] using inv.comp_keys id hid
  · intro id t' hfind'
    by_cases hid : id ∈ el
    · rw [hfind_mem id hid] at hfind'
      obtain ⟨t0, hf0, ht0⟩ := Option.map_eq_some'.1 hfind'
      constructor
      · intro hs
        rw [← ht0] at hs
        by_cases hsucc : (oracle id).success <;> simp [finishApply, hsucc] at hs
      · rintro ⟨-, hnf⟩
        exact absurd (List.mem_append_right _ hid) hnf
    · rw [hfind_not id hid] at hfind'
      have horig := inv.status_running id t' hfind'
      constructor
      · intro hs
        obtain ⟨h1, h2⟩ := horig.1 hs
        refine ⟨h1, ?_⟩
        intro hmem
        rcases List.mem_append.1 hmem with h | h
        · exact h2 h
        · exact hid h
      · rintro ⟨h1, h2⟩
        exact horig.2 ⟨h1, fun h => h2 (List.mem_append_left _ h)⟩
  · intro id t' hfind'
    by_cases hid : id ∈ el
    · rw [hfind_mem id hid] at hfind'
      obtain ⟨t0, hf0, ht0⟩ := Option.map_eq_some'.1 hfind'
      constructor
      · intro _
        exact Or.inr (List.mem_append_right _ hid)
      · intro _
        rw [← ht0]
        by_cases hsucc : (oracle id).success
        · exact Or.inl (by simp [finishApply, hsucc])
        · exact Or.inr (by simp [finishApply, hsucc])
    · rw [hfind_not id hid] at hfind'
      have horig := inv.status_terminal id t' hfind'
      constructor
      · intro hs
        rcases horig.1 hs with h | h
        · exact Or.inl h
        · exact Or.inr (List.mem_append_left _ h)
      · intro hs
        rcases hs with h | h
        · exact horig.2 (Or.inl h)
        · rcases List.mem_append.1 h with h | h
          · exact horig.2 (Or.inr h)
          · exact absurd h hid
  · have := inv.bound
    simp only [List.length_append]
    omega
  · intro id1 id2 t1 t2 h1 h2 hne hf1 hf2 i hi1 hi2
    have key : ∀ id t', alistFind (el.foldl (finishTask oracle now) st.tasks) id =
        some t' → ∃ t0, alistFind st.tasks id = some t0 ∧
          t'.assigned_instance = t0.assigned_instance := by
      intro id t' hfind'
      by_cases hid : id ∈ el
      · rw [hfind_mem id hid] at hfind'
        obtain ⟨t0, hf0, ht0⟩ := Option.map_eq_some'.1 hfind'
        exact ⟨t0, hf0, by rw [← ht0]; simp [finishApply]⟩
      · rw [hfind_not id hid] at hfind'
        exact ⟨t', hfind', rfl⟩
    obtain ⟨s1, hs1, ha1⟩ := key id1 t1 hf1
    obtain ⟨s2, hs2, ha2⟩ := key id2 t2 hf2
    rw [ha1] at hi1
    rw [ha2] at hi2
    exact inv.assigned_uniq id1 id2 s1 s2 h1 h2 hne hs1 hs2 i hi1 hi2
  · intro id t' hfind' hstat d hd
    by_cases hid : id ∈ el
    · rw [hfind_mem id hid] at hfind'
      obtain ⟨t0, hf0, ht0⟩ := Option.map_eq_some'.1 hfind'
      have hrun : t0.status = "running" :=
        (inv.status_running id t0 hf0).2 ⟨hel_run id hid, hel_nfin id hid⟩
      have hdeps := inv.deps_done id t0 hf0 (by rw [hrun]; decide)
      have hdep_eq : t'.dependencies = t0.dependencies := by
        rw [← ht0]
        simp [finishApply]
      rw [hdep_eq] at hd
      exact hdeps d hd
    · rw [hfind_not id hid] at hfind'
      exact inv.deps_done id t' hfind' hstat d hd
  · intro id t' hfind' hstat
    by_cases hid : id ∈ el
    · rw [hfind_mem id hid] at hfind'
      obtain ⟨t0, hf0, ht0⟩ := Option.map_eq_some'.1 hfind'
      rw [← ht0] at hstat
      by_cases hsucc : (oracle id).success
      · exact hsucc
      · simp [finishApply, hsucc] at hstat
    · rw [hfind_not id hid] at hfind'
      exact inv.outcome_comp id t' hfind' hstat
  · intro id t' hfind' hstat
    by_cases hid : id ∈ el
    · rw [hfind_mem id hid] at hfind'
      obtain ⟨t0, hf0, ht0⟩ := Option.map_eq_some'.1 hfind'
      rw [← ht0] at hstat
      by_cases hsucc : (oracle id).success
      · simp [finishApply, hsucc] at hstat
      · simpa using hsucc
    · rw [hfind_not id hid] at hfind'
      exact inv.outcome_fail id t' hfind' hstat

theorem sleepFinish_inv (maxConc : Nat) (oracle : String → RunOutcome) (now : Int)
    (fin : List String) (st : SchedState) (inv : SchedInv maxConc oracle st) :
    SchedInv maxConc oracle (sleepFinish oracle now fin st) ∧
    (sleepFinish oracle now fin st).completed_tasks = st.completed_tasks ∧
    (sleepFinish oracle now fin st).running_tasks = st.running_tasks := by
  have hel_nodup : (fin.dedup.filter (fun id => st.running_tasks.contains id &&
      !(st.finished.contains id))).Nodup := fin.nodup_dedup.filter _
  have hel_run : ∀ id ∈ fin.dedup.filter (fun id => st.running_tasks.contains id &&
      !(st.finished.contains id)), id ∈ st.running_tasks := by
    intro id hid
    simp only [List.mem_filter, Bool.and_eq_true] at hid
    simpa using hid.2.1
  have hel_nfin : ∀ id ∈ fin.dedup.filter (fun id => st.running_tasks.contains id &&
      !(st.finished.contains id)), id ∉ st.finished := by
    intro id hid
    simp only [List.mem_filter, Bool.and_eq_true] at hid
    simpa using hid.2.2
  exact ⟨sleepFinish_inv_aux maxConc oracle now _ st inv hel_nodup hel_run hel_nfin,
    rfl, rfl⟩

theorem collect_inv (maxConc : Nat) (oracle : String → RunOutcome)
    (st : SchedState) (inv : SchedInv maxConc oracle st) :
    SchedInv maxConc oracle (collect st) ∧ (collect st).tasks = st.tasks := by
  refine ⟨?_, rfl⟩
  show SchedInv maxConc oracle
    { st with
      completed_tasks := st.completed_tasks ++ st.finished,
      running_tasks := st.running_tasks.filter (fun id => !(st.finished.contains id)),
      started := st.started.filter (fun id => !(st.finished.contains id)),
      finished := [] }
  refine
    { keys_nodup := inv.keys_nodup, key_coh := inv.key_coh,
      status_valid := inv.status_valid,
      run_nodup := inv.run_nodup.filter _, comp_nodup := ?_,
      fin_nodup := List.nodup_nil, started_sub := ?_, fin_sub_run := ?_,
      run_keys := ?_,
      comp_keys := ?_, run_comp_disj := ?_, status_running := ?_,
      status_terminal := ?_, bound := ?_, assigned_uniq := ?_, deps_done := ?_,
      outcome_comp := inv.outcome_comp, outcome_fail := inv.outcome_fail }
  · refine inv.comp_nodup.append inv.fin_nodup (List.disjoint_left.2 ?_)
    intro a ha haf
    exact inv.run_comp_disj a (inv.fin_sub_run a haf) ha
  · intro id h
    have h1 := List.mem_filter.1 h
    exact List.mem_filter.2 ⟨inv.started_sub id h1.1, h1.2⟩
  · intro id h
    simp at h
  · intro id hid
    exact inv.run_keys id (List.mem_filter.1 hid).1
  · intro id hid
    rcases List.mem_append.1 hid with h | h
    · exact inv.comp_keys id h
    · exact inv.run_keys id (inv.fin_sub_run id h)
  · intro id hid hmem
    have h1 := List.mem_filter.1 hid
    have hnf : id ∉ st.finished := by simpa using h1.2
    rcases List.mem_append.1 hmem with h | h
    · exact inv.run_comp_disj id h1.1 h
    · exact hnf h
  · intro id t hf
    have horig := inv.status_running id t hf
    constructor
    · intro hs
      obtain ⟨h1, h2⟩ := horig.1 hs
      exact ⟨List.mem_filter.2 ⟨h1, by simpa using h2⟩, List.not_mem_nil id⟩
    · rintro ⟨h1, -⟩
      have h2 := List.mem_filter.1 h1
      exact horig.2 ⟨h2.1, by simpa using h2.2⟩
  · intro id t hf
    have horig := inv.status_terminal id t hf
    constructor
    · intro hs
      rcases horig.1 hs with h | h
      · exact Or.inl (List.mem_append_left _ h)
      · exact Or.inl (List.mem_append_right _ h)
    · intro hs
      rcases hs with h | h
      · rcases List.mem_append.1 h with h | h
        · exact horig.2 (Or.inl h)
        · exact horig.2 (Or.inr h)
      · exact absurd h (List.not_mem_nil id)
  · have hp := length_filter_not_contains st.running_tasks st.finished inv.run_nodup
      inv.fin_nodup inv.fin_sub_run
    have hb := inv.bound
    simp only [List.length_nil]
    omega
  · intro id1 id2 t1 t2 h1 h2 hne hf1 hf2 i hi1 hi2
    exact inv.assigned_uniq id1 id2 t1 t2 (List.mem_filter.1 h1).1
      (List.mem_filter.1 h2).1 hne hf1 hf2 i hi1 hi2
  · intro id t hf hstat d hd
    exact List.mem_append_left _ (inv.deps_done id t hf hstat d hd)

theorem readyTasks_props (maxConc : Nat) (oracle : String → RunOutcome)
    (st : SchedState) (inv : SchedInv maxConc oracle st) :
    ((sortByPriorityDesc (readyTasks st)).map Task.task_id).Nodup ∧
    (∀ t ∈ sortByPriorityDesc (readyTasks st),
      alistFind st.tasks t.task_id = some t ∧ t.status = "pending" ∧
      t.task_id ∉ st.running_tasks ∧ t.task_id ∉ st.completed_tasks ∧
      (∀ d ∈ t.dependencies, d ∈ st.completed_tasks)) := by
  have hids : (readyTasks st).map Task.task_id =
      (st.tasks.filter (fun p => isReady st p.1 p.2)).map Prod.fst := by
    simp only [readyTasks, List.map_map]
    apply List.map_congr_left
    intro p hp
    exact inv.key_coh p (List.mem_of_mem_filter hp)
  constructor
  · have hready_nd : ((readyTasks st).map Task.task_id).Nodup := by
      rw [hids]
      exact inv.keys_nodup.sublist ((List.filter_sublist _).map _)
    exact (((sortByPriorityDesc_perm (readyTasks st)).map Task.task_id).symm).nodup hready_nd
  · intro t ht
    have ht' := (sortByPriorityDesc_perm (readyTasks st)).mem_iff.1 ht
    simp only [readyTasks, List.mem_map] at ht'
    obtain ⟨p, hp, hpt⟩ := ht'
    obtain ⟨k, tk⟩ := p
    simp only at hpt
    subst hpt
    have hpmem := List.mem_of_mem_filter hp
    have hpready := List.of_mem_filter hp
    have hcoh := inv.key_coh (k, tk) hpmem
    simp only at hcoh
    simp only [isReady, Bool.and_eq_true, beq_iff_eq, Bool.not_eq_true',
      List.all_eq_true] at hpready
    obtain ⟨⟨⟨hstat, hnrun⟩, hncomp⟩, hdeps⟩ := hpready
    have hnrun' : k ∉ st.running_tasks := by
      intro h
      rw [show st.running_tasks.contains k = true from by simpa using h] at hnrun
      simp at hnrun
    have hncomp' : k ∉ st.completed_tasks := by
      intro h
      rw [show st.completed_tasks.contains k = true from by simpa using h] at hncomp
      simp at hncomp
    have hdeps' : ∀ d ∈ tk.dependencies, d ∈ st.completed_tasks := by
      intro d hd
      have := hdeps d hd
      simpa using this
    rw [hcoh]
    exact ⟨mem_alistFind _ _ _ inv.keys_nodup hpmem, hstat, hnrun', hncomp', hdeps'⟩

theorem stepIter_inv (instances : List String) (maxConc : Nat)
    (oracle : String → RunOutcome) (now : Int) (fin : List String)
    (st : SchedState) (inv : SchedInv maxConc oracle st) :
    SchedInv maxConc oracle (stepIter instances maxConc oracle now fin st) := by
  have hready := readyTasks_props maxConc oracle st inv
  have hd := dispatch_inv instances maxConc oracle now
    (sortByPriorityDesc (readyTasks st)) st inv hready.1 hready.2
  simp only [stepIter, dispatchPhase]
  split
  · exact hd.1
  · split
    · exact (sleepFinish_inv maxConc oracle now fin _ hd.1).1
    · exact (collect_inv maxConc oracle _ hd.1).1

theorem runSched_inv (instances : List String) (maxConc : Nat)
    (oracle : String → RunOutcome) (now : Int) (schedule : List (List String)) :
    ∀ st, SchedInv maxConc oracle st →
      SchedInv maxConc oracle (runSched instances maxConc oracle now schedule st) := by
  induction schedule with
  | nil => exact fun st inv => inv
  | cons fin rest ih =>
    intro st inv
    rw [runSched]
    split
    · exact ih _ (stepIter_inv instances maxConc oracle now fin st inv)
    · exact inv

theorem initState_inv (maxConc : Nat) (oracle : String → RunOutcome) (s : Session)
    (hkeys : (s.tasks.map Prod.fst).Nodup)
    (hcoh : ∀ p ∈ s.tasks, p.2.task_id = p.1)
    (hpend : ∀ p ∈ s.tasks, p.2.status = "pending") :
    SchedInv maxConc oracle (initState s) := by
  have hfind : ∀ id t, alistFind s.tasks id = some t → t.status = "pending" := by
    intro id t h
    exact hpend (id, t) (alistFind_mem _ _ _ h)
  show SchedInv maxConc oracle
    { tasks := s.tasks, completed_tasks := [], running_tasks := [],
      started := [], finished := [], dispatchLog := [] }
  refine
    { keys_nodup := hkeys, key_coh := hcoh,
      status_valid := fun p hp => Or.inl (hpend p hp),
      run_nodup := List.nodup_nil,
      comp_nodup := List.nodup_nil, fin_nodup := List.nodup_nil,
      started_sub := ?_,
      fin_sub_run := ?_, run_keys := ?_, comp_keys := ?_, run_comp_disj := ?_,
      status_running := ?_, status_terminal := ?_, bound := by simp,
      assigned_uniq := ?_, deps_done := ?_, outcome_comp := ?_, outcome_fail := ?_ }
  · intro id h
    simp at h
  · intro id h
    simp at h
  · intro id h
    simp at h
  · intro id h
    simp at h
  · intro id h
    simp at h
  · intro id t hf
    rw [hfind id t hf]
    constructor
    · intro hs
      simp at hs
    · rintro ⟨h, -⟩
      simp at h
  · intro id t hf
    rw [hfind id t hf]
    constructor
    · intro hs
      rcases hs with hs | hs <;> simp at hs
    · intro hs
      rcases hs with hs | hs <;> simp at hs
  · intro id1 id2 t1 t2 h1
    simp at h1
  · intro id t hf hstat
    exact absurd (hfind id t hf) hstat
  · intro id t hf hs
    rw [hfind id t hf] at hs
    simp at hs
  · intro id t hf hs
    rw [hfind id t hf] at hs
    simp at hs

theorem list_exists_min (f : String → Nat) (l : List String) (h : l ≠ []) :
    ∃ a ∈ l, ∀ b ∈ l, f a ≤ f b := by
  induction l with
  | nil => exact absurd rfl h
  | cons x xs ih =>
    by_cases hx : xs = []
    · subst hx
      refine ⟨x, by simp, ?_⟩
      intro b hb
      simp at hb
      subst hb
      exact le_refl _
    · obtain ⟨a, ha, hmin⟩ := ih hx
      by_cases hle : f x ≤ f a
      · refine ⟨x, by simp, ?_⟩
        intro b hb
        rcases List.mem_cons.1 hb with rfl | hb
        · exact le_refl _
        · exact le_trans hle (hmin b hb)
      · refine ⟨a, List.mem_cons_of_mem _ ha, ?_⟩
        intro b hb
        rcases List.mem_cons.1 hb with rfl | hb
        · exact le_of_not_le hle
        · exact hmin b hb

theorem dispatch_frame (instances : List String) (maxConc : Nat) (now : Int)
    (rl : List Task) :
    ∀ st : SchedState,
      (dispatch instances maxConc now rl st).completed_tasks = st.completed_tasks ∧
      (dispatch instances maxConc now rl st).finished = st.finished ∧
      (dispatch instances maxConc now rl st).started = st.started ∧
      (dispatch instances maxConc now rl st).tasks.map Prod.fst = st.tasks.map Prod.fst ∧
      (∀ id ∈ st.running_tasks, id ∈ (dispatch instances maxConc now rl st).running_tasks) := by
  induction rl with
  | nil => exact fun st => ⟨rfl, rfl, rfl, rfl, fun id h => h⟩
  | cons t rest ih =>
    intro st
    by_cases hguard : st.running_tasks.length ≥ maxConc - holders st
    · simp only [dispatch, if_pos hguard]
      exact ⟨by trivial, by trivial, by trivial, by trivial, fun id h => h⟩
    · cases hfa : findAvailable st.tasks st.running_tasks instances with
      | none =>
        simp only [dispatch, if_neg hguard, hfa]
        exact ih st
      | some inst =>
        simp only [dispatch, if_neg hguard, hfa]
        obtain ⟨h1, h2, h3, h4, h5⟩ := ih
          { st with
            tasks := updateTask st.tasks t.task_id (fun tk =>
              { tk with assigned_instance := some inst, status := "running",
                        started_at := some now }),
            running_tasks := st.running_tasks ++ [t.task_id],
            dispatchLog := st.dispatchLog ++ [t.task_id] }
        refine ⟨h1, h2, h3, ?_, ?_⟩
        · rw [h4]
          show (updateTask st.tasks t.task_id (fun tk =>
            { tk with assigned_instance := some inst, status := "running",
                      started_at := some now })).map Prod.fst = st.tasks.map Prod.fst
          exact updateTask_keys _ _ _
        · intro id h
          exact h5 id (List.mem_append_left _ h)

theorem updateTask_depsRanked (rank : String → Nat) (tasks : List (String × Task))
    (id : String) (f : Task → Task)
    (hf : ∀ tk : Task, (f tk).dependencies = tk.dependencies)
    (h : DepsRanked rank tasks) : DepsRanked rank (updateTask tasks id f) := by
  intro id' t' hfind' d hd
  rw [updateTask_keys]
  by_cases hid : id' = id
  · subst hid
    rw [alistFind_updateTask_self] at hfind'
    obtain ⟨t0, hf0, ht0⟩ := Option.map_eq_some'.1 hfind'
    rw [← ht0, hf t0] at hd
    exact h id' t0 hf0 d hd
  · rw [alistFind_updateTask_other _ _ _ _ hid] at hfind'
    exact h id' t' hfind' d hd

theorem foldl_finishTask_depsRanked (rank : String → Nat)
    (oracle : String → RunOutcome) (now : Int) (el : List String) :
    ∀ tasks, DepsRanked rank tasks →
      DepsRanked rank (el.foldl (finishTask oracle now) tasks) := by
  induction el with
  | nil => exact fun tasks h => h
  | cons a el ih =>
    intro tasks h
    simp only [List.foldl_cons]
    exact ih _ (updateTask_depsRanked rank tasks a _
      (fun tk => by simp [finishApply]) h)

theorem dispatch_depsRanked (instances : List String) (maxConc : Nat) (now : Int)
    (rank : String → Nat) (rl : List Task) :
    ∀ st : SchedState, DepsRanked rank st.tasks →
      DepsRanked rank (dispatch instances maxConc now rl st).tasks := by
  induction rl with
  | nil => exact fun st h => h
  | cons t rest ih =>
    intro st h
    by_cases hguard : st.running_tasks.length ≥ maxConc - holders st
    · simp only [dispatch, if_pos hguard]
      exact h
    · cases hfa : findAvailable st.tasks st.running_tasks instances with
      | none =>
        simp only [dispatch, if_neg hguard, hfa]
        exact ih st h
      | some inst =>
        simp only [dispatch, if_neg hguard, hfa]
        exact ih _ (updateTask_depsRanked rank st.tasks t.task_id (fun tk =>
          { tk with assigned_instance := some inst, status := "running",
                    started_at := some now }) (fun tk => rfl) h)

theorem stepIter_keys (instances : List String) (maxConc : Nat)
    (oracle : String → RunOutcome) (now : Int) (fin : List String) (st : SchedState) :
    (stepIter instances maxConc oracle now fin st).tasks.map Prod.fst =
      st.tasks.map Prod.fst := by
  have hd := dispatch_frame instances maxConc now (sortByPriorityDesc (readyTasks st)) st
  simp only [stepIter, dispatchPhase]
  split
  · exact hd.2.2.2.1
  · split
    · simp only [sleepFinish]
      rw [foldl_finishTask_keys]
      exact hd.2.2.2.1
    · simp only [collect]
      exact hd.2.2.2.1

theorem stepIter_depsRanked (instances : List String) (maxConc : Nat)
    (oracle : String → RunOutcome) (now : Int) (fin : List String)
    (rank : String → Nat) (st : SchedState) (h : DepsRanked rank st.tasks) :
    DepsRanked rank (stepIter instances maxConc oracle now fin st).tasks := by
  have hd := dispatch_depsRanked instances maxConc now rank
    (sortByPriorityDesc (readyTasks st)) st h
  simp only [stepIter, dispatchPhase]
  split
  · exact hd
  · split
    · simp only [sleepFinish]
      exact foldl_finishTask_depsRanked rank oracle now _ _ hd
    · simp only [collect]
      exact hd

theorem stepIter_done_mono (instances : List String) (maxConc : Nat)
    (oracle : String → RunOutcome) (now : Int) (fin : List String) (st : SchedState) :
    st.completed_tasks.length ≤
      (stepIter instances maxConc oracle now fin st).completed_tasks.length := by
  have hd := (dispatch_frame instances maxConc now
    (sortByPriorityDesc (readyTasks st)) st).1
  simp only [stepIter, dispatchPhase]
  split
  · rw [hd]
  · split
    · simp only [sleepFinish]
      rw [hd]
    · simp only [collect, List.length_append]
      rw [hd]
      omega

theorem isEmpty_false_of_ne_nil {α : Type} {l : List α} (h : l ≠ []) :
    l.isEmpty = false := by
  simpa [List.isEmpty_iff] using h

theorem dispatch_nonempty (instances : List String) (maxConc : Nat)
    (oracle : String → RunOutcome) (now : Int) (rl : List Task) (st : SchedState)
    (inv : SchedInv maxConc oracle st) (hrun : st.running_tasks = [])
    (hmax : 1 ≤ maxConc) (hinst : instances ≠ []) (hrl : rl ≠ []) :
    (dispatch instances maxConc now rl st).running_tasks ≠ [] := by
  obtain ⟨t, rest, rfl⟩ : ∃ t rest, rl = t :: rest := by
    cases rl with
    | nil => exact absurd rfl hrl
    | cons a b => exact ⟨a, b, rfl⟩
  obtain ⟨i, is, rfl⟩ : ∃ i is, instances = i :: is := by
    cases instances with
    | nil => exact absurd rfl hinst
    | cons a b => exact ⟨a, b, rfl⟩
  have hstarted : st.started = [] := by
    rw [List.eq_nil_iff_forall_not_mem]
    intro x hx
    have hmem := inv.started_sub x hx
    rw [hrun] at hmem
    simp at hmem
  have hhold : holders st = 0 := by
    simp [holders, hstarted]
  have hguard : ¬(st.running_tasks.length ≥ maxConc - holders st) := by
    rw [hrun, hhold]
    simp only [List.length_nil, Nat.sub_zero]
    omega
  have hfa : findAvailable st.tasks st.running_tasks (i :: is) = some i := by
    rw [hrun]
    rfl
  simp only [dispatch, if_neg hguard, hfa]
  have hmono := (dispatch_frame (i :: is) maxConc now rest
    { st with
      tasks := updateTask st.tasks t.task_id (fun tk =>
        { tk with assigned_instance := some i, status := "running",
                  started_at := some now }),
      running_tasks := st.running_tasks ++ [t.task_id],
      dispatchLog := st.dispatchLog ++ [t.task_id] }).2.2.2.2
  have hmem := hmono t.task_id (List.mem_append_right _ (by simp))
  exact List.ne_nil_of_mem hmem

theorem ready_nonempty (maxConc : Nat) (oracle : String → RunOutcome)
    (rank : String → Nat) (st : SchedState) (inv : SchedInv maxConc oracle st)
    (hdr : DepsRanked rank st.tasks)
    (hrun : st.running_tasks = []) (hfin : st.finished = [])
    (hlt : st.completed_tasks.length < st.tasks.length) :
    sortByPriorityDesc (readyTasks st) ≠ [] := by
  have hexists : ∃ k, k ∈ st.tasks.map Prod.fst ∧ k ∉ st.completed_tasks := by
    by_contra hcon
    push_neg at hcon
    have hsub : st.tasks.map Prod.fst ⊆ st.completed_tasks := by
      intro k hk
      exact hcon k hk
    have hlen := (List.subperm_of_subset inv.keys_nodup hsub).length_le
    rw [List.length_map] at hlen
    omega
  have hSne : (st.tasks.map Prod.fst).filter
      (fun k => !(st.completed_tasks.contains k)) ≠ [] := by
    obtain ⟨k, hk, hnd⟩ := hexists
    exact List.ne_nil_of_mem (List.mem_filter.2 ⟨hk, by simpa using hnd⟩)
  obtain ⟨k, hkS, hkmin⟩ := list_exists_min rank _ hSne
  have hkS' := List.mem_filter.1 hkS
  have hkkey : k ∈ st.tasks.map Prod.fst := hkS'.1
  have hkdone : k ∉ st.completed_tasks := by simpa using hkS'.2
  obtain ⟨t, hfind⟩ := alistFind_isSome _ _ hkkey
  have hkrun : k ∉ st.running_tasks := by
    rw [hrun]
    simp
  have hkfin : k ∉ st.finished := by
    rw [hfin]
    simp
  have hpend : t.status = "pending" := by
    rcases inv.status_valid (k, t) (alistFind_mem _ _ _ hfind) with h | h | h | h
    · exact h
    · exact absurd ((inv.status_running k t hfind).1 h).1 hkrun
    · rcases (inv.status_terminal k t hfind).1 (Or.inl h) with hc | hc
      · exact absurd hc hkdone
      · exact absurd hc hkfin
    · rcases (inv.status_terminal k t hfind).1 (Or.inr h) with hc | hc
      · exact absurd hc hkdone
      · exact absurd hc hkfin
  have hdeps : ∀ d ∈ t.dependencies, d ∈ st.completed_tasks := by
    intro d hd
    by_contra hdc
    have hdkey := (hdr k t hfind d hd).2
    have hdS : d ∈ (st.tasks.map Prod.fst).filter
        (fun k => !(st.completed_tasks.contains k)) :=
      List.mem_filter.2 ⟨hdkey, by simpa using hdc⟩
    have hmin := hkmin d hdS
    have hrank := (hdr k t hfind d hd).1
    omega
  have hready : isReady st k t = true := by
    simp only [isReady, Bool.and_eq_true, beq_iff_eq, Bool.not_eq_true',
      List.all_eq_true]
    refine ⟨⟨⟨hpend, ?_⟩, ?_⟩, ?_⟩
    · rw [hrun]
      rfl
    · simpa using hkdone
    · intro d hd
      simpa using hdeps d hd
  have htmem : t ∈ readyTasks st := by
    simp only [readyTasks, List.mem_map]
    exact ⟨(k, t), List.mem_filter.2 ⟨alistFind_mem _ _ _ hfind, hready⟩, rfl⟩
  exact List.ne_nil_of_mem ((sortByPriorityDesc_perm (readyTasks st)).mem_iff.2 htmem)

theorem stepIter_collect_progress (instances : List String) (maxConc : Nat)
    (oracle : String → RunOutcome) (now : Int) (fin : List String)
    (st : SchedState) (inv : SchedInv maxConc oracle st) (hfin : st.finished ≠ []) :
    st.completed_tasks.length <
      (stepIter instances maxConc oracle now fin st).completed_tasks.length := by
  have hd := dispatch_frame instances maxConc now (sortByPriorityDesc (readyTasks st)) st
  obtain ⟨x, hx⟩ := List.exists_mem_of_ne_nil st.finished hfin
  have hxrun1 : x ∈ (dispatch instances maxConc now
      (sortByPriorityDesc (readyTasks st)) st).running_tasks :=
    hd.2.2.2.2 x (inv.fin_sub_run x hx)
  simp only [stepIter, dispatchPhase]
  rw [isEmpty_false_of_ne_nil (List.ne_nil_of_mem hxrun1)]
  rw [isEmpty_false_of_ne_nil (by rw [hd.2.1]; exact hfin)]
  simp only [Bool.false_eq_true, if_false]
  simp only [collect, List.length_append]
  rw [hd.1, hd.2.1]
  have : 0 < st.finished.length := List.length_pos.2 hfin
  omega

theorem stepIter_progress (instances : List String) (maxConc : Nat)
    (oracle : String → RunOutcome) (now : Int) (rank : String → Nat)
    (K : List String) (st : SchedState) (inv : SchedInv maxConc oracle st)
    (hdr : DepsRanked rank st.tasks) (hkeq : st.tasks.map Prod.fst = K)
    (hinst : instances ≠ []) (hmax : 1 ≤ maxConc)
    (hlt : st.completed_tasks.length < st.tasks.length) :
    st.completed_tasks.length <
      (stepIter instances maxConc oracle now K st).completed_tasks.length ∨
    ((stepIter instances maxConc oracle now K st).completed_tasks.length =
      st.completed_tasks.length ∧
     (stepIter instances maxConc oracle now K st).finished ≠ []) := by
  have hd := dispatch_frame instances maxConc now (sortByPriorityDesc (readyTasks st)) st
  by_cases hfin : st.finished = []
  · right
    have hrun1 : (dispatch instances maxConc now
        (sortByPriorityDesc (readyTasks st)) st).running_tasks ≠ [] := by
      by_cases hrun : st.running_tasks = []
      · exact dispatch_nonempty instances maxConc oracle now _ st inv hrun hmax hinst
          (ready_nonempty maxConc oracle rank st inv hdr hrun hfin hlt)
      · obtain ⟨x, hx⟩ := List.exists_mem_of_ne_nil st.running_tasks hrun
        exact List.ne_nil_of_mem (hd.2.2.2.2 x hx)
    obtain ⟨x, hx⟩ := List.exists_mem_of_ne_nil _ hrun1
    have hdisInv := (dispatch_inv instances maxConc oracle now
      (sortByPriorityDesc (readyTasks st)) st inv
      (readyTasks_props maxConc oracle st inv).1
      (readyTasks_props maxConc oracle st inv).2).1
    have hxK : x ∈ K := by
      rw [← hkeq]
      have hxk := hdisInv.run_keys x hx
      rwa [hd.2.2.2.1] at hxk
    simp only [stepIter, dispatchPhase]
    rw [isEmpty_false_of_ne_nil hrun1]
    simp only [Bool.false_eq_true, if_false]
    rw [show (dispatch instances maxConc now (sortByPriorityDesc (readyTasks st))
      st).finished.isEmpty = true from by rw [hd.2.1, hfin]; rfl]
    simp only [if_true]
    constructor
    · simp only [sleepFinish]
      rw [hd.1]
    · simp only [sleepFinish]
      apply List.ne_nil_of_mem
      apply List.mem_append_right
      refine List.mem_filter.2 ⟨List.mem_dedup.2 hxK, ?_⟩
      rw [Bool.and_eq_true]
      constructor
      · simpa using hx
      · rw [hd.2.1, hfin]
        rfl
  · left
    exact stepIter_collect_progress instances maxConc oracle now K st inv hfin

theorem runSched_cons (instances : List String) (maxConc : Nat)
    (oracle : String → RunOutcome) (now : Int) (fin : List String)
    (rest : List (List String)) (st : SchedState) :
    runSched instances maxConc oracle now (fin :: rest) st =
      if st.completed_tasks.length < st.tasks.length then
        runSched instances maxConc oracle now rest
          (stepIter instances maxConc oracle now fin st)
      else st := rfl

theorem runSched_terminates (instances : List String) (maxConc : Nat)
    (oracle : String → RunOutcome) (now : Int) (rank : String → Nat)
    (K : List String) (hinst : instances ≠ []) (hmax : 1 ≤ maxConc) :
    ∀ (m : Nat) (st : SchedState), SchedInv maxConc oracle st →
      DepsRanked rank st.tasks → st.tasks.map Prod.fst = K →
      st.tasks.length ≤ st.completed_tasks.length + m →
      (runSched instances maxConc oracle now
        (List.replicate (2 * m) K) st).tasks.length ≤
      (runSched instances maxConc oracle now
        (List.replicate (2 * m) K) st).completed_tasks.length := by
  intro m
  induction m with
  | zero =>
    intro st inv hdr hkeq hle
    exact hle
  | succ m ih =>
    intro st inv hdr hkeq hle
    have hrep : List.replicate (2 * (m + 1)) K = K :: K :: List.replicate (2 * m) K := by
      have h2 : 2 * (m + 1) = (2 * m + 1) + 1 := by ring
      rw [h2, List.replicate_succ, List.replicate_succ]
    rw [hrep, runSched_cons]
    by_cases hc : st.completed_tasks.length < st.tasks.length
    swap
    · rw [if_neg hc]
      omega
    rw [if_pos hc, runSched_cons]
    have inv1 := stepIter_inv instances maxConc oracle now K st inv
    have hdr1 := stepIter_depsRanked instances maxConc oracle now K rank st hdr
    have hkeq1 : (stepIter instances maxConc oracle now K st).tasks.map Prod.fst = K :=
      (stepIter_keys instances maxConc oracle now K st).trans hkeq
    have hlen1 : (stepIter instances maxConc oracle now K st).tasks.length =
        st.tasks.length := by
      have hmapeq := congrArg List.length (stepIter_keys instances maxConc oracle now K st)
      simpa using hmapeq
    have hprog := stepIter_progress instances maxConc oracle now rank K st inv hdr
      hkeq hinst hmax hc
    by_cases hc1 : (stepIter instances maxConc oracle now K st).completed_tasks.length <
        (stepIter instances maxConc oracle now K st).tasks.length
    swap
    · rw [if_neg hc1]
      omega
    rw [if_pos hc1]
    have inv2 := stepIter_inv instances maxConc oracle now K
      (stepIter instances maxConc oracle now K st) inv1
    have hdr2 := stepIter_depsRanked instances maxConc oracle now K rank
      (stepIter instances maxConc oracle now K st) hdr1
    have hkeq2 : (stepIter instances maxConc oracle now K
        (stepIter instances maxConc oracle now K st)).tasks.map Prod.fst = K :=
      (stepIter_keys instances maxConc oracle now K _).trans hkeq1
    have hlen2 : (stepIter instances maxConc oracle now K
        (stepIter instances maxConc oracle now K st)).tasks.length =
        (stepIter instances maxConc oracle now K st).tasks.length := by
      have hmapeq := congrArg List.length (stepIter_keys instances maxConc oracle now K
        (stepIter instances maxConc oracle now K st))
      simpa using hmapeq
    have hdone2 : st.completed_tasks.length <
        (stepIter instances maxConc oracle now K
          (stepIter instances maxConc oracle now K st)).completed_tasks.length := by
      rcases hprog with h | ⟨heq, hfin⟩
      · have hmono := stepIter_done_mono instances maxConc oracle now K
          (stepIter instances maxConc oracle now K st)
        omega
      · have hcol := stepIter_collect_progress instances maxConc oracle now K
          (stepIter instances maxConc oracle now K st) inv1 hfin
        omega
    exact ih (stepIter instances maxConc oracle now K
      (stepIter instances maxConc oracle now K st)) inv2 hdr2 hkeq2 (by omega)

/-- C3: within one `execute_session` call, at every point of the
scheduling loop the number of tasks with status "running" never exceeds
`max_concurrent` — both at every iteration boundary and at the
intra-iteration peak immediately after the dispatch phase (the count
only grows during dispatch, so these points dominate all others).
Hypotheses: the session's task map has unique keys, each task's
`task_id` equals its key, and every task starts pending — exactly what
`add_task` constructs. -/
theorem running_count_bounded (s : Session) (instances : List String) (maxConc : Nat)
    (oracle : String → RunOutcome) (now : Int) (schedule : List (List String))
    (hkeys : (s.tasks.map Prod.fst).Nodup)
    (hcoh : ∀ p ∈ s.tasks, p.2.task_id = p.1)
    (hpend : ∀ p ∈ s.tasks, p.2.status = "pending") :
    ∀ n : Nat,
      countRunningStatus (runSched instances maxConc oracle now (schedule.take n)
        (initState s)) ≤ maxConc ∧
      countRunningStatus (dispatchPhase instances maxConc now
        (runSched instances maxConc oracle now (schedule.take n)
          (initState s))) ≤ maxConc := by
  intro n
  have inv0 := initState_inv maxConc oracle s hkeys hcoh hpend
  have invn := runSched_inv instances maxConc oracle now (schedule.take n) _ inv0
  have hready := readyTasks_props maxConc oracle _ invn
  have hdis := dispatch_inv instances maxConc oracle now
    (sortByPriorityDesc (readyTasks _)) _ invn hready.1 hready.2
  exact ⟨countRunningStatus_le _ _ _ invn, countRunningStatus_le _ _ _ hdis.1⟩

theorem running_count_bounded_witness :
    countRunningStatus (runSched ["w1"] 2 allOk 0 (c8Schedule.take 3)
      (initState sessionC8)) ≤ 2 ∧
    countRunningStatus (dispatchPhase ["w1"] 2 0 (runSched ["w1"] 2 allOk 0
      (c8Schedule.take 3) (initState sessionC8))) ≤ 2 :=
  running_count_bounded sessionC8 ["w1"] 2 allOk 0 c8Schedule
    (by decide) (by decide) (by decide) 3

/-- C4: within one `execute_session` call, no instance is ever the
`assigned_instance` of two tasks that are simultaneously in status
"running" — at iteration boundaries and at the post-dispatch peak; a
task is only dispatched to an instance that no in-flight task is
assigned to (the `findAvailable` scan, field `assigned_uniq` of the
preserved invariant). -/
theorem no_double_assignment (s : Session) (instances : List String) (maxConc : Nat)
    (oracle : String → RunOutcome) (now : Int) (schedule : List (List String))
    (hkeys : (s.tasks.map Prod.fst).Nodup)
    (hcoh : ∀ p ∈ s.tasks, p.2.task_id = p.1)
    (hpend : ∀ p ∈ s.tasks, p.2.status = "pending") :
    ∀ n : Nat,
      NoDoubleAssign (runSched instances maxConc oracle now (schedule.take n)
        (initState s)) ∧
      NoDoubleAssign (dispatchPhase instances maxConc now
        (runSched instances maxConc oracle now (schedule.take n) (initState s))) := by
  intro n
  have inv0 := initState_inv maxConc oracle s hkeys hcoh hpend
  have invn := runSched_inv instances maxConc oracle now (schedule.take n) _ inv0
  have hready := readyTasks_props maxConc oracle _ invn
  have hdis := dispatch_inv instances maxConc oracle now
    (sortByPriorityDesc (readyTasks _)) _ invn hready.1 hready.2
  have key : ∀ st, SchedInv maxConc oracle st → NoDoubleAssign st := by
    intro st inv id1 id2 t1 t2 i hf1 hf2 hne hs1 hs2 hi1 hi2
    have h1 := (inv.status_running id1 t1 hf1).1 hs1
    have h2 := (inv.status_running id2 t2 hf2).1 hs2
    exact inv.assigned_uniq id1 id2 t1 t2 h1.1 h2.1 hne hf1 hf2 i hi1 hi2
  exact ⟨key _ invn, key _ hdis.1⟩

theorem no_double_assignment_witness :
    NoDoubleAssign (runSched ["w1"] 2 allOk 0 (c8Schedule.take 3)
      (initState sessionC8)) ∧
    NoDoubleAssign (dispatchPhase ["w1"] 2 0 (runSched ["w1"] 2 allOk 0
      (c8Schedule.take 3) (initState sessionC8))) :=
  no_double_assignment sessionC8 ["w1"] 2 allOk 0 c8Schedule
    (by decide) (by decide) (by decide) 3

/-- C1 amended: a task transitions from "pending" to "running" only
when every task in its dependency list is in the scheduler's done-set,
i.e. has reached a terminal status — "completed" or "failed".  (A
failed dependency satisfies the readiness check, since the done-set
collects every finished task regardless of outcome.) -/
theorem running_deps_terminal (s : Session) (instances : List String) (maxConc : Nat)
    (oracle : String → RunOutcome) (now : Int) (schedule : List (List String))
    (hkeys : (s.tasks.map Prod.fst).Nodup)
    (hcoh : ∀ p ∈ s.tasks, p.2.task_id = p.1)
    (hpend : ∀ p ∈ s.tasks, p.2.status = "pending") :
    ∀ n : Nat,
      RunningDepsTerminal (runSched instances maxConc oracle now (schedule.take n)
        (initState s)) ∧
      RunningDepsTerminal (dispatchPhase instances maxConc now
        (runSched instances maxConc oracle now (schedule.take n) (initState s))) := by
  intro n
  have inv0 := initState_inv maxConc oracle s hkeys hcoh hpend
  have invn := runSched_inv instances maxConc oracle now (schedule.take n) _ inv0
  have hready := readyTasks_props maxConc oracle _ invn
  have hdis := dispatch_inv instances maxConc oracle now
    (sortByPriorityDesc (readyTasks _)) _ invn hready.1 hready.2
  have key : ∀ st, SchedInv maxConc oracle st → RunningDepsTerminal st := by
    intro st inv id t hf hs d hd
    have hdc := inv.deps_done id t hf (by rw [hs]; decide) d hd
    obtain ⟨dt, hdt⟩ := alistFind_isSome _ _ (inv.comp_keys d hdc)
    exact ⟨hdc, dt, hdt, (inv.status_terminal d dt hdt).2 (Or.inl hdc)⟩
  exact ⟨key _ invn, key _ hdis.1⟩

theorem running_deps_terminal_witness :
    RunningDepsTerminal (runSched ["w1"] 1 oracleAB 0
      (([["A"], [], [], ["B"], []]).take 3) (initState sessionAB)) :=
  (running_deps_terminal sessionAB ["w1"] 1 oracleAB 0 [["A"], [], [], ["B"], []]
    (by decide) (by decide) (by decide) 3).1

/-- C2 amended: a failed task enters the scheduler's done-set exactly
like a completed one, so its transitive dependents do not remain
pending forever: they become ready, are dispatched, and reach a
terminal status determined solely by their own execution outcome
(completed iff their own run succeeds) — they are never marked failed
on account of the dependency and carry no "unreachable dependency"
reason.  Moreover the loop terminates in general: whenever the
dependency graph is acyclic (witnessed by a rank function), at least
one instance is available and `max_concurrent ≥ 1`, the done-set covers
every task within `2 * |tasks|` iterations under the schedule in which
every in-flight execution finishes during the next sleep — no task is
left pending forever, failures notwithstanding.  In the A-fails,
B-depends-on-A scenario the loop terminates with A failed and B
completed. -/
theorem failed_dependency_dependents_execute (s : Session) (instances : List String)
    (maxConc : Nat) (oracle : String → RunOutcome) (now : Int)
    (schedule : List (List String))
    (hkeys : (s.tasks.map Prod.fst).Nodup)
    (hcoh : ∀ p ∈ s.tasks, p.2.task_id = p.1)
    (hpend : ∀ p ∈ s.tasks, p.2.status = "pending") :
    (∀ n : Nat, OutcomeDetermined oracle
      (runSched instances maxConc oracle now (schedule.take n) (initState s))) ∧
    (∀ (rank : String → Nat) (m : Nat),
      (∀ p ∈ s.tasks, ∀ d ∈ p.2.dependencies,
        rank d < rank p.1 ∧ d ∈ s.tasks.map Prod.fst) →
      instances ≠ [] → 1 ≤ maxConc → s.tasks.length ≤ m →
      (runSched instances maxConc oracle now
        (List.replicate (2 * m) (s.tasks.map Prod.fst)) (initState s)).tasks.length ≤
      (runSched instances maxConc oracle now
        (List.replicate (2 * m) (s.tasks.map Prod.fst))
        (initState s)).completed_tasks.length) ∧
    statusOf (abRun 5) "A" = some "failed" ∧
    statusOf (abRun 5) "B" = some "completed" ∧
    (abRun 5).completed_tasks.length = (abRun 5).tasks.length := by
  have inv0 := initState_inv maxConc oracle s hkeys hcoh hpend
  refine ⟨?_, ?_, by decide, by decide, by decide⟩
  · intro n
    have invn := runSched_inv instances maxConc oracle now (schedule.take n) _ inv0
    intro id t hf
    exact ⟨invn.outcome_comp id t hf, invn.outcome_fail id t hf⟩
  · intro rank m hdr hinst hmax hm
    have hdr' : DepsRanked rank (initState s).tasks := by
      intro id t h d hd
      exact hdr (id, t) (alistFind_mem _ _ _ h) d hd
    exact runSched_terminates instances maxConc oracle now rank
      (s.tasks.map Prod.fst) hinst hmax m (initState s) inv0 hdr' rfl
      (by simpa [initState] using hm)

theorem failed_dependency_dependents_execute_witness :
    OutcomeDetermined oracleAB (abRun 5) ∧
    (runSched ["w1"] 1 oracleAB 0
      (List.replicate (2 * 2) (sessionAB.tasks.map Prod.fst))
      (initState sessionAB)).tasks.length ≤
    (runSched ["w1"] 1 oracleAB 0
      (List.replicate (2 * 2) (sessionAB.tasks.map Prod.fst))
      (initState sessionAB)).completed_tasks.length := by
  have h := failed_dependency_dependents_execute sessionAB ["w1"] 1 oracleAB 0
    [["A"], [], [], ["B"], []] (by decide) (by decide) (by decide)
  exact ⟨h.1 5, h.2.1 (fun id => if id = "B" then 1 else 0) 2 (by decide)
    (by decide) (by decide) (by decide)⟩

end CCTrees
